import Mathlib

/-!
Verification development for the `tr-apisrv` HTTP request router and
request-processing pipeline.  The JavaScript source is shallowly embedded:
pure routines become Lean functions, the per-request lifecycle becomes an
explicit event-driven state machine producing a trace of actions, and the
JavaScript builtins the code calls (`decodeURIComponent`, `parseInt`,
`JSON.parse`, `URLSearchParams`) are modelled after their ECMAScript / WHATWG
semantics on the fragments the program exercises.
-/

namespace ApiSrv

/-! ## Basic string helpers (JS string operations are modelled on `String.data`) -/

/-- JS `\s` / `String.prototype.trim` whitespace set (ASCII part plus the
Unicode space characters, NBSP, BOM and the line/paragraph separators). -/
def jsWhitespace (c : Char) : Bool :=
  c.toNat = 9 || c.toNat = 10 || c.toNat = 11 || c.toNat = 12 || c.toNat = 13 ||
  c.toNat = 32 || c.toNat = 160 || c.toNat = 65279 || c.toNat = 5760 ||
  (8192 ≤ c.toNat && c.toNat ≤ 8202) || c.toNat = 8232 || c.toNat = 8233 ||
  c.toNat = 8239 || c.toNat = 8287 || c.toNat = 12288

/-- JS `String.prototype.trim`. -/
def jsTrim (s : String) : String :=
  ⟨(s.data.dropWhile jsWhitespace).reverse.dropWhile jsWhitespace |>.reverse⟩

/-- `s.includes(pat)` for JS strings. -/
def jsIncludes (s pat : String) : Bool :=
  (List.range (s.data.length + 1)).any (fun i => pat.data.isPrefixOf (s.data.drop i))

/-- `s.endsWith(pat)` for JS strings. -/
def jsEndsWith (s pat : String) : Bool :=
  pat.data.reverse.isPrefixOf s.data.reverse

/-- `s.startsWith(pat)` for JS strings. -/
def jsStartsWith (s pat : String) : Bool :=
  pat.data.isPrefixOf s.data

/-- `s.slice(0, -1)`: drop the final character. -/
def dropLastChar (s : String) : String :=
  ⟨s.data.dropLast⟩

/-- `s.slice(1)`: drop the first character. -/
def dropFirstChar (s : String) : String :=
  ⟨s.data.drop 1⟩

/-- `s.length` of a JS string (code points; the inputs the claims exercise
are ASCII, where this agrees with UTF-16 length). -/
def jsLength (s : String) : Nat :=
  s.data.length

/-- ASCII uppercasing, as `String.prototype.toUpperCase` acts on the ASCII
method names this program passes through it. -/
def asciiUpper (s : String) : String :=
  ⟨s.data.map Char.toUpper⟩

/-- Does the string contain the character `c`? -/
def jsHasChar (s : String) (c : Char) : Bool :=
  s.data.contains c

def splitStrAux (sep : Char) : List Char → List Char → List String
  | [], acc => [⟨acc.reverse⟩]
  | c :: rest, acc =>
    if c = sep then ⟨acc.reverse⟩ :: splitStrAux sep rest []
    else splitStrAux sep rest (c :: acc)

/-- `s.split(sep)` for a single-character separator (as all splits in the
source are). -/
def splitStr (s : String) (sep : Char) : List String :=
  splitStrAux sep s.data []

def natDigitsAux : Nat → Nat → List Char
  | 0, _ => []
  | fuel + 1, n =>
    if n < 10 then [Char.ofNat (48 + n)]
    else natDigitsAux fuel (n / 10) ++ [Char.ofNat (48 + n % 10)]

/-- Decimal rendering of a natural number (JS `String(index)`). -/
def natToString (n : Nat) : String :=
  ⟨natDigitsAux (n + 1) n⟩

/-- `(path.length > 1) && path.endsWith('/')` of the compiler and of
`describePath`. -/
def hasTrailingSlashOf (path : String) : Bool :=
  decide (jsLength path > 1) && jsEndsWith path "/"

/-- The template with its trailing slash stripped. -/
def trimmedOf (path : String) : String :=
  if hasTrailingSlashOf path then dropLastChar path else path

/-- `trimmed.slice(1).split('/')`. -/
def rawSegmentsOf (path : String) : List String :=
  splitStr (dropFirstChar (trimmedOf path)) '/'

/-! ## Association-list model of JS plain objects / `Map`s

JS objects created with `Object.create(null)` and ES `Map`s both enumerate
keys in insertion order, with assignment to an existing key keeping its
position.  Both are modelled as `List (String × α)` without duplicate keys. -/

/-- First binding of `k`, i.e. JS property lookup / `Map.get`. -/
def assocGet (l : List (String × α)) (k : String) : Option α :=
  match l.find? (fun p => p.1 = k) with
  | some p => some p.2
  | none => none

/-- Does the object have the key (`hasOwnProperty` / `Map.has`)? -/
def assocHas (l : List (String × α)) (k : String) : Bool :=
  l.any (fun p => p.1 = k)

/-- JS assignment `o[k] = v` / `Map.set`: replace in place, else append. -/
def assocSet (l : List (String × α)) (k : String) (v : α) : List (String × α) :=
  match l with
  | [] => [(k, v)]
  | (k', v') :: rest =>
    if k' = k then (k, v) :: rest else (k', v') :: assocSet rest k v

/-- `Map.delete`: remove the first binding of `k`; also report success. -/
def assocDelete (l : List (String × α)) (k : String) : List (String × α) × Bool :=
  match l with
  | [] => ([], false)
  | (k', v') :: rest =>
    if k' = k then (rest, true)
    else
      let r := assocDelete rest k
      ((k', v') :: r.1, r.2)

/-! ## `detectDangerousPath` -/

/-- Embeds `detectDangerousPath` (src/unnamed/part_002:39-56).  The
`typeof path !== 'string'` branch cannot arise here because the model is
typed; all call sites pass strings. -/
def detectDangerousPath (path : String) : Option String :=
  if path = "/" then none
  else if jsIncludes path "//" then some "empty path segment"
  else if path = "/." || jsEndsWith path "/." || jsIncludes path "/./" then
    some "dangerous path segment \".\""
  else if path = "/.." || jsEndsWith path "/.." || jsIncludes path "/../" then
    some "dangerous path segment \"..\""
  else none

/-! ## `describePath` -/

structure PathInfo where
  segments : List String
  hasTrailingSlash : Bool
  deriving Repr, DecidableEq

/-- Embeds `describePath` (src/unnamed/part_002:151-165); the `throw` for a
path not starting with `/` becomes `Except.error`. -/
def describePath (path : String) : Except String PathInfo :=
  if ¬ jsStartsWith path "/" then
    .error ("Bad request path: " ++ path)
  else if path = "/" then
    .ok ⟨[], false⟩
  else if trimmedOf path = "/" then
    .ok ⟨[], true⟩
  else
    .ok ⟨splitStr (dropFirstChar (trimmedOf path)) '/', hasTrailingSlashOf path⟩

/-! ## `decodePathSegment` (`decodeURIComponent` model)

`decodeURIComponent` per ECMA-262 `Decode`: percent-escapes yield bytes,
which must form strict (RFC 3629) UTF-8; any failure throws, modelled as
`none`.  Characters outside escapes pass through unchanged. -/

def hexVal (c : Char) : Option Nat :=
  if c.toNat ≥ 48 && c.toNat ≤ 57 then some (c.toNat - 48)
  else if c.toNat ≥ 65 && c.toNat ≤ 70 then some (c.toNat - 55)
  else if c.toNat ≥ 97 && c.toNat ≤ 102 then some (c.toNat - 87)
  else none

/-- Read one `%XY` escape from the head of the list, returning its byte. -/
def takeEscByte : List Char → Option (Nat × List Char)
  | '%' :: c1 :: c2 :: rest =>
    match hexVal c1, hexVal c2 with
    | some h1, some h2 => some (h1 * 16 + h2, rest)
    | _, _ => none
  | _ => none

/-- Is `b` a UTF-8 continuation byte within `[lo, hi]`? -/
def contIn (b lo hi : Nat) : Bool :=
  lo ≤ b && b ≤ hi

def decodeURIChars (fuel : Nat) (l : List Char) : Option (List Char) :=
  match fuel, l with
  | _, [] => some []
  | 0, _ => none
  | fuel + 1, c :: rest =>
    if c = '%' then
      match takeEscByte (c :: rest) with
      | none => none
      | some (b1, r1) =>
        if b1 < 128 then
          match decodeURIChars fuel r1 with
          | some tl => some (Char.ofNat b1 :: tl)
          | none => none
        else if 194 ≤ b1 && b1 ≤ 223 then
          match takeEscByte r1 with
          | some (b2, r2) =>
            if contIn b2 128 191 then
              match decodeURIChars fuel r2 with
              | some tl => some (Char.ofNat ((b1 - 192) * 64 + (b2 - 128)) :: tl)
              | none => none
            else none
          | none => none
        else if 224 ≤ b1 && b1 ≤ 239 then
          match takeEscByte r1 with
          | some (b2, r2) =>
            let lo2 := if b1 = 224 then 160 else 128
            let hi2 := if b1 = 237 then 159 else 191
            if contIn b2 lo2 hi2 then
              match takeEscByte r2 with
              | some (b3, r3) =>
                if contIn b3 128 191 then
                  match decodeURIChars fuel r3 with
                  | some tl =>
                    some (Char.ofNat ((b1 - 224) * 4096 + (b2 - 128) * 64 + (b3 - 128)) :: tl)
                  | none => none
                else none
              | none => none
            else none
          | none => none
        else if 240 ≤ b1 && b1 ≤ 244 then
          match takeEscByte r1 with
          | some (b2, r2) =>
            let lo2 := if b1 = 240 then 144 else 128
            let hi2 := if b1 = 244 then 143 else 191
            if contIn b2 lo2 hi2 then
              match takeEscByte r2 with
              | some (b3, r3) =>
                if contIn b3 128 191 then
                  match takeEscByte r3 with
                  | some (b4, r4) =>
                    if contIn b4 128 191 then
                      match decodeURIChars fuel r4 with
                      | some tl =>
                        some (Char.ofNat ((b1 - 240) * 262144 + (b2 - 128) * 4096 +
                          (b3 - 128) * 64 + (b4 - 128)) :: tl)
                      | none => none
                    else none
                  | none => none
                else none
              | none => none
            else none
          | none => none
        else none
    else
      match decodeURIChars fuel rest with
      | some tl => some (c :: tl)
      | none => none

/-- Embeds `decodePathSegment` (src/unnamed/part_002:167-173):
`decodeURIComponent`, with a thrown `URIError` turned into `none`. -/
def decodePathSegment (segment : String) : Option String :=
  match decodeURIChars (segment.data.length + 1) segment.data with
  | some l => some ⟨l⟩
  | none => none

/-! ## Parameter values

JSON values as produced by the `JSON.parse` model.  Number and string
literals are kept in their raw source form: the program never computes with
them, it only routes them into parameter objects. -/

inductive JVal where
  | null
  | bool (b : Bool)
  | num (raw : String)
  | str (raw : String)
  | arr (elems : List JVal)
  | obj (fields : List (String × JVal))
  deriving Repr

/-- A value stored in one of the parameter objects: a decoded path string, a
string-array capture / repeated query key, a plain number (used when claims
supply literal parameter objects), or a JSON value from a request body. -/
inductive PVal where
  | s (v : String)
  | a (vs : List String)
  | n (v : Int)
  | j (v : JVal)
  deriving Repr

/-- Parameter objects (`Object.create(null)` maps from names to values). -/
abbrev PMap := List (String × PVal)

/-! ## Path template compiler -/

inductive Seg where
  | literal (value : String)
  | param (name : String)
  | splat (name : String) (minItems maxItems : Nat)
  deriving Repr, DecidableEq

structure PathTemplate where
  isExact : Bool
  template : String
  segments : List Seg
  hasTrailingSlash : Bool
  hasSplat : Bool
  minSegments : Nat
  minSegmentsFrom : List Nat
  deriving Repr, DecidableEq

/-- `PARAM_NAME_RE`: `[A-Za-z_][A-Za-z0-9_]*` matching the whole string. -/
def isParamNameString (s : String) : Bool :=
  match s.data with
  | [] => false
  | c :: rest =>
    (c.isAlpha || c = '_') && rest.all (fun d => d.isAlphanum || d = '_')

/-- `\d+`: a non-empty all-digit string. -/
def isDigitsNonempty (s : String) : Bool :=
  decide (s ≠ "") && s.data.all Char.isDigit

/-- `Number.MAX_SAFE_INTEGER`. -/
def maxSafeInt : Nat := 2 ^ 53 - 1

def DEFAULT_SPLAT_MIN : Nat := 1
def DEFAULT_SPLAT_MAX : Nat := 32

/-- Numeric value of a digit-character list. -/
def digitsValue (l : List Char) : Nat :=
  l.foldl (fun acc c => acc * 10 + (c.toNat - 48)) 0

/-- Value of an all-digit string (the `parseInt` result for one; rounding in
`parseInt` never turns an out-of-range value into a safe integer, so the
subsequent `Number.isSafeInteger` test is exactly `≤ maxSafeInt`). -/
def digitsToNat (s : String) : Nat :=
  digitsValue s.data

/-- Classify one raw template segment, mirroring the loop body of
`compilePathTemplate` (src/unnamed/part_002:196-258). -/
def compileSegment (path part : String) : Except String Seg :=
  if part = "" then .ok (.literal "")
  else if jsStartsWith part "\x7b" && jsEndsWith part "\x7d" &&
      isParamNameString (dropFirstChar (dropLastChar part)) then
    .ok (.param (dropFirstChar (dropLastChar part)))
  else if jsStartsWith part "[" && jsEndsWith part "]" &&
      (match splitStr (dropFirstChar (dropLastChar part)) ':' with
       | [n] => isParamNameString n
       | [n, d1] => isParamNameString n && isDigitsNonempty d1
       | [n, d1, d2] => isParamNameString n && isDigitsNonempty d1 && isDigitsNonempty d2
       | _ => false) then
    match splitStr (dropFirstChar (dropLastChar part)) ':' with
    | [n] => .ok (.splat n DEFAULT_SPLAT_MIN DEFAULT_SPLAT_MAX)
    | [n, d1] =>
      let first := digitsToNat d1
      if first > maxSafeInt then
        .error ("Invalid array length constraint for \"" ++ n ++ "\" in " ++ path)
      else if first < 1 then
        .error ("Invalid minimum length for \"" ++ n ++ "\" in " ++ path)
      else .ok (.splat n first first)
    | [n, d1, d2] =>
      let first := digitsToNat d1
      let second := digitsToNat d2
      if first > maxSafeInt then
        .error ("Invalid array length constraint for \"" ++ n ++ "\" in " ++ path)
      else if second > maxSafeInt then
        .error ("Invalid array length constraint for \"" ++ n ++ "\" in " ++ path)
      else if first < 1 then
        .error ("Invalid minimum length for \"" ++ n ++ "\" in " ++ path)
      else if second < first then
        .error ("Invalid length range for \"" ++ n ++ "\" in " ++ path)
      else .ok (.splat n first second)
    | _ => .error "unreachable"
  else if jsStartsWith part "\x7b" && jsEndsWith part "\x7d" then
    let name := dropFirstChar (dropLastChar part)
    if ¬ isParamNameString name then
      .error ("Invalid path parameter name \"" ++ name ++ "\" in " ++ path)
    else
      .error ("Invalid path parameter segment \"" ++ part ++ "\" in " ++ path)
  else if jsStartsWith part "[" && jsEndsWith part "]" then
    let inner := dropFirstChar (dropLastChar part)
    let name := (splitStr inner ':').headD ""
    if ¬ isParamNameString name then
      .error ("Invalid path parameter name \"" ++ name ++ "\" in " ++ path)
    else
      .error ("Invalid path parameter segment \"" ++ part ++ "\" in " ++ path)
  else .ok (.literal part)

def compileSegments (path : String) : List String → Except String (List Seg)
  | [] => .ok []
  | part :: rest =>
    match compileSegment path part, compileSegments path rest with
    | .ok s, .ok ss => .ok (s :: ss)
    | .error e, _ => .error e
    | _, .error e => .error e

def isSegDynamic : Seg → Bool
  | .literal _ => false
  | _ => true

def isSegSplat : Seg → Bool
  | .splat _ _ _ => true
  | _ => false

/-- The per-segment contribution to `minSegmentsFrom`: `minItems` for a
splat, `1` otherwise. -/
def segMinCount : Seg → Nat
  | .splat _ minItems _ => minItems
  | _ => 1

/-- Suffix sum of `segMinCount` over a segment list: the minimum number of
request segments needed to satisfy it. -/
def minSegsOf : List Seg → Nat
  | [] => 0
  | s :: rest => segMinCount s + minSegsOf rest

/-- The `minSegmentsFrom` array, computed right-to-left exactly as the loop
at src/unnamed/part_002:259-265 does. -/
def minSegmentsFromList : List Seg → List Nat
  | [] => [0]
  | s :: rest =>
    let tail := minSegmentsFromList rest
    (segMinCount s + tail.headD 0) :: tail

theorem minSegmentsFromList_headD (segs : List Seg) :
    (minSegmentsFromList segs).headD 0 = minSegsOf segs := by
  induction segs with
  | nil => rfl
  | cons s rest ih => simpa [minSegmentsFromList, minSegsOf] using ih

/-- Embeds `compilePathTemplate` (src/unnamed/part_002:175-275). -/
def compilePathTemplate (path : String) : Except String PathTemplate :=
  if ¬ jsStartsWith path "/" then
    .error ("Bad request handler path: " ++ path)
  else if path = "/" then
    .ok ⟨true, path, [], false, false, 0, [0]⟩
  else
    match compileSegments path (rawSegmentsOf path) with
    | .error e => .error e
    | .ok segments =>
      .ok ⟨¬ segments.any isSegDynamic, path, segments, hasTrailingSlashOf path,
           segments.any isSegSplat, (minSegmentsFromList segments).headD 0,
           minSegmentsFromList segments⟩

/-! ## Path matcher -/

/-- Parameter map built by the matcher. -/
abbrev Params := List (String × PVal)

/-- One decision of the splat loop body for a candidate capture length. -/
inductive LoopStep where
  | found (p : Params)
  | next
  | stop

/-- The ascending `for (let len = minLen; len <= maxLen; len++)` loop of the
splat case: try `f` at each candidate length; `found` answers, `stop` ends
the loop (the `break`), `next` moves on (the `continue`s). -/
def firstLen (f : Nat → LoopStep) : Nat → Nat → Option Params
  | _, 0 => none
  | len, fuel + 1 =>
    match f len with
    | .found p => some p
    | .stop => none
    | .next => firstLen f (len + 1) fuel

/-- URL-decode every element of a slice, failing on the first bad one. -/
def decodeSlice : List String → Option (List String)
  | [] => some []
  | s :: rest =>
    match decodePathSegment s with
    | none => none
    | some d =>
      match decodeSlice rest with
      | none => none
      | some ds => some (d :: ds)

/-- Embeds `matchRecursive` (src/unnamed/part_002:294-362), with the
template-index/request-index pair replaced by the corresponding list
suffixes.  `minSegsOf rest` is the value `compiled.minSegmentsFrom[tIndex+1]`
holds for a compiled template (see `minSegmentsFromList_headD`). -/
def matchSegs : (segs : List Seg) → (rs : List String) → Option Params
  | [], rs => if rs.isEmpty then some [] else none
  | .literal v :: rest, rs =>
    match rs with
    | [] => none
    | r :: rs' => if v = r then matchSegs rest rs' else none
  | .param name :: rest, rs =>
    match rs with
    | [] => none
    | r :: rs' =>
      match decodePathSegment r with
      | none => none
      | some d =>
        match matchSegs rest rs' with
        | none => none
        | some m => some (assocSet m name (PVal.s d))
  | .splat name minItems maxItems :: rest, rs =>
    if rs.isEmpty then none
    else
      let available : Int := (rs.length : Int) - (minSegsOf rest : Int)
      if available < (minItems : Int) then none
      else
        let maxLen : Int := min (maxItems : Int) available
        if maxLen < (minItems : Int) then none
        else
          firstLen (fun len =>
              let slice := rs.take len
              if slice.length ≠ len then .stop
              else
                match decodeSlice slice with
                | none => .next
                | some ds =>
                  match matchSegs rest (rs.drop len) with
                  | none => .next
                  | some m => .found (assocSet m name (PVal.a ds)))
            minItems ((maxLen - (minItems : Int)).toNat + 1)

/-- Embeds `matchCompiledPath` (src/unnamed/part_002:277-365). -/
def matchCompiledPath (compiled : PathTemplate) (pathInfo : PathInfo) : Option Params :=
  if compiled.hasTrailingSlash && ¬ pathInfo.hasTrailingSlash then none
  else if pathInfo.segments.length < compiled.minSegments then none
  else if ¬ compiled.hasSplat && pathInfo.segments.length ≠ compiled.segments.length then none
  else if compiled.segments.isEmpty then
    if pathInfo.segments.isEmpty then some [] else none
  else matchSegs compiled.segments pathInfo.segments

/-! ## Handler registry

Validators and handlers are dynamic callback references; they are modelled
by their observable outcomes: a validator either returns an object, returns
a non-object, or throws with a message; a handler either returns (any value)
or throws. -/

/-- Outcome of awaiting a validator callback. -/
inductive VOut where
  | obj (m : PMap)
  | nonObj
  | raise (msg : String)

/-- Normalized handler options (`normalizeHandlerOptions` output); the
`typeof`-checks of that function are enforced by typing here. -/
structure HOpts where
  pathV : Option (PMap → VOut) := none
  urlV : Option (PMap → VOut) := none
  bodyV : Option (PMap → VOut) := none
  paramsV : Option (PMap → VOut) := none
  ignoreUrlParams : Bool := false

/-- A registered handler entry: the compiled template plus the handler's
options and the handler callback's behavior (`none` = it throws/rejects). -/
structure Entry where
  tmpl : PathTemplate
  opts : Option HOpts := none
  handlerResult : Option Bool := some true

/-- A per-method store: `exact` and `dynamic` maps keyed by template string. -/
structure Store where
  exact : List (String × Entry) := []
  dynamic : List (String × Entry) := []

/-- `this._requestHandlers`: method name → store. -/
abbrev Registry := List (String × Store)

def SUPPORTED_METHODS : List String := ["GET", "POST", "PUT", "DELETE"]

/-- Embeds `normalizeMethod` (src/unnamed/part_002:385-394); the
`typeof method !== 'string'` branch is precluded by typing. -/
def normalizeMethod (method : String) : Except String String :=
  let upper := asciiUpper method
  if SUPPORTED_METHODS.contains upper then .ok upper
  else .error ("Unsupported request handler method: " ++ method)

/-- Embeds `removeFromStore` (src/unnamed/part_002:405-414). -/
def removeFromStore (store : Store) (path : String) : Store × Bool :=
  let ex := assocDelete store.exact path
  let dy := assocDelete store.dynamic path
  (⟨ex.1, dy.1⟩, ex.2 || dy.2)

/-- The dynamic-map probe loop of `findMatchInStore`
(src/unnamed/part_002:432-437), in map insertion order. -/
def findDynamic : List (String × Entry) → PathInfo → Option (Entry × Params)
  | [], _ => none
  | (_, e) :: rest, pathInfo =>
    match matchCompiledPath e.tmpl pathInfo with
    | some params => some (e, params)
    | none => findDynamic rest pathInfo

/-- The exact-map probes of `findMatchInStore`
(src/unnamed/part_002:420-430): the literal path first, then — for a path
with a trailing slash — the stripped path, accepted only when the entry does
not itself require the trailing slash. -/
def exactProbe (store : Store) (path : String) : Option Entry :=
  match assocGet store.exact path with
  | some e => some e
  | none =>
    if decide (jsLength path > 1) && jsEndsWith path "/" then
      match assocGet store.exact (dropLastChar path) with
      | some e => if ¬ e.tmpl.hasTrailingSlash then some e else none
      | none => none
    else none

/-- Embeds `findMatchInStore` (src/unnamed/part_002:416-439).  `describePath`
can throw, so the result is `Except`. -/
def findMatchInStore (store : Store) (path : String) : Except String (Option (Entry × Params)) :=
  match exactProbe store path with
  | some e => .ok (some (e, []))
  | none =>
    match describePath path with
    | .error msg => .error msg
    | .ok pathInfo => .ok (findDynamic store.dynamic pathInfo)

/-- Embeds `requestHandleAdd` (src/unnamed/part_002:962-977).  The handler
callback and its options arrive already normalized (`normalizeHandlerOptions`
only type-checks them), as `opts` and `handlerResult` of the new entry. -/
def requestHandleAdd (reg : Registry) (method path : String)
    (opts : Option HOpts := none) (handlerResult : Option Bool := some true) :
    Except String Registry :=
  match normalizeMethod method with
  | .error e => .error e
  | .ok m =>
    match compilePathTemplate path with
    | .error e => .error e
    | .ok compiled =>
      let entry : Entry := ⟨compiled, opts, handlerResult⟩
      let store := (assocGet reg m).getD ⟨[], []⟩
      let store' :=
        if compiled.isExact then
          { store with exact := assocSet store.exact compiled.template entry }
        else
          { store with dynamic := assocSet store.dynamic compiled.template entry }
      .ok (assocSet reg m store')

/-- The `method == '*'` loop of `requestHandleDelete`
(src/unnamed/part_002:983-991): remove `path` from every store, prune
stores that became empty, report whether anything was removed. -/
def wildcardDelete : Registry → String → Bool × Registry
  | [], _ => (false, [])
  | (k, store) :: rest, path =>
    let r := removeFromStore store path
    let tail := wildcardDelete rest path
    if r.1.exact.isEmpty && r.1.dynamic.isEmpty then
      (r.2 || tail.1, tail.2)
    else
      (r.2 || tail.1, (k, r.1) :: tail.2)

/-- Embeds `requestHandleDelete` (src/unnamed/part_002:979-1003). -/
def requestHandleDelete (reg : Registry) (method path : String) :
    Except String (Bool × Registry) :=
  if ¬ jsStartsWith path "/" then
    .error ("Bad request handler path: " ++ path)
  else if method = "*" then
    .ok (wildcardDelete reg path)
  else
    match normalizeMethod method with
    | .error e => .error e
    | .ok m =>
      match assocGet reg m with
      | none => .ok (false, reg)
      | some store =>
        let r := removeFromStore store path
        if r.1.exact.isEmpty && r.1.dynamic.isEmpty then
          .ok (r.2, (assocDelete reg m).1)
        else
          .ok (r.2, assocSet reg m r.1)

/-- Embeds `#matchRequestHandler` (src/unnamed/part_002:1005-1011). -/
def matchRequestHandler (reg : Registry) (method path : String) :
    Except String (Option (Entry × Params)) :=
  match assocGet reg (asciiUpper method) with
  | none => .ok none
  | some store => findMatchInStore store path

/-- The scan loop of `#hasHandlerForOtherMethod`
(src/unnamed/part_002:1013-1024). -/
def hasOtherLoop : Registry → String → String → Except String Bool
  | [], _, _ => .ok false
  | (k, store) :: rest, normalizedMethod, path =>
    if k = normalizedMethod then hasOtherLoop rest normalizedMethod path
    else
      match findMatchInStore store path with
      | .error e => .error e
      | .ok (some _) => .ok true
      | .ok none => hasOtherLoop rest normalizedMethod path

/-- Embeds `#hasHandlerForOtherMethod` (src/unnamed/part_002:1013-1024). -/
def hasHandlerForOtherMethod (reg : Registry) (method path : String) :
    Except String Bool :=
  hasOtherLoop reg (asciiUpper method) path

/-! ## Parameter merging -/

/-- Embeds `assignParams` (src/unnamed/part_002:367-383).  The returned
triple is (updated target, updated sources map, collision diagnostics in
emission order); a diagnostic `(key, current, previous)` stands for the
`console.warn` naming the key and both source labels.  The `!source` guard
is precluded by typing (all call sites pass objects). -/
def assignParams (target : PMap) (source : PMap) (sourceType : String)
    (sources : List (String × String)) :
    PMap × List (String × String) × List (String × String × String) :=
  match source with
  | [] => (target, sources, [])
  | (key, value) :: rest =>
    let warns : List (String × String × String) :=
      if assocHas target key then
        match assocGet sources key with
        | some previous =>
          if previous ≠ "" && previous ≠ sourceType then [(key, sourceType, previous)] else []
        | none => []
      else []
    let step := assignParams (assocSet target key value) rest sourceType
      (assocSet sources key sourceType)
    (step.1, step.2.1, warns ++ step.2.2)

/-- The merge sequence of `endCb` (src/unnamed/part_002:845-853): body, then
query (unless `ignoreUrlParams`), then path, into a fresh object, returning
the merged parameters and all collision diagnostics. -/
def mergeParams (effectiveBodyParams urlParams pathParams : PMap)
    (ignoreUrlParams : Bool) : PMap × List (String × String × String) :=
  let m1 := assignParams [] effectiveBodyParams "body" []
  let m2 :=
    if ignoreUrlParams then (m1.1, m1.2.1, ([] : List (String × String × String)))
    else assignParams m1.1 urlParams "query" m1.2.1
  let m3 := assignParams m2.1 pathParams "path" m2.2.1
  (m3.1, m1.2.2 ++ m2.2.2 ++ m3.2.2)

/-! ## Content-Type parsing -/

def asciiLower (s : String) : String :=
  ⟨s.data.map Char.toLower⟩

/-- HTTP token characters, the class in the parameter regex of
`parseContentType`. -/
def isTokenChar (c : Char) : Bool :=
  c.isAlphanum ||
  [33, 35, 36, 37, 38, 39, 42, 43, 45, 46, 94, 95, 96, 124, 126].contains c.toNat

/-- A regex-`.` character (anything but a line terminator). -/
def isDotChar (c : Char) : Bool :=
  ¬ (c.toNat = 10 || c.toNat = 13 || c.toNat = 8232 || c.toNat = 8233)

/-- The body of a quoted string: `(?:[^"\\]|\\.)*`. -/
def quotedBodyOk : List Char → Bool
  | [] => true
  | '\\' :: c :: rest => isDotChar c && quotedBodyOk rest
  | '\\' :: [] => false
  | '"' :: _ => false
  | _ :: rest => quotedBodyOk rest

/-- Does the whole string match `"(?:[^"\\]|\\.)*"`? -/
def isQuotedFull (s : String) : Bool :=
  match s.data with
  | '"' :: rest => decide (rest ≠ []) && rest.getLast? = some '"' && quotedBodyOk rest.dropLast
  | _ => false

structure ContentType where
  type : String
  params : List (String × String)
  deriving Repr, DecidableEq

/-- Does a parameter value match `(?:"(?:[^"\\]|\\.)*"|[^\s;]+)` in full? -/
def ctValueOk (v : List Char) : Bool :=
  isQuotedFull ⟨v⟩ || (decide (v ≠ []) && v.all (fun c => ¬ jsWhitespace c && c ≠ ';'))

/-- Match one `name=value` parameter part against the anchored regex of
`parseContentType` and perform its quote-stripping and lowercasing. -/
def parseCTParam (part : String) : Option (String × String) :=
  match part.data.span (fun c => c ≠ '=') with
  | (nameChars, _ :: valChars) =>
    if nameChars ≠ [] && nameChars.all isTokenChar && ctValueOk valChars then
      let val : String := ⟨valChars⟩
      let stripped := if jsStartsWith val "\"" then dropFirstChar (dropLastChar val) else val
      some (asciiLower ⟨nameChars⟩, asciiLower stripped)
    else none
  | _ => none

def parseCTParams : List String → List (String × String) → Option (List (String × String))
  | [], acc => some acc
  | part :: rest, acc =>
    match parseCTParam part with
    | none => none
    | some kv => parseCTParams rest (assocSet acc kv.1 kv.2)

/-- Embeds `parseContentType` (src/unnamed/part_002:78-97). -/
def parseContentType (str : String) : Option ContentType :=
  match ((splitStr str ';').map jsTrim).filter (· ≠ "") with
  | [] => none
  | t :: rest =>
    match parseCTParams rest [] with
    | none => none
    | some params => some ⟨asciiLower t, params⟩

/-! ## `parseInt` (radix 10) -/

/-- JS `parseInt(s, 10)`: optional whitespace and sign, then a maximal digit
run (`none` = `NaN`); trailing garbage is ignored.  The exact mathematical
value is kept — float rounding never moves a value across the
`Number.isSafeInteger` boundary the caller checks. -/
def parseIntJS (s : String) : Option Int :=
  let l := s.data.dropWhile jsWhitespace
  let signAndRest : Int × List Char :=
    match l with
    | '-' :: r => (-1, r)
    | '+' :: r => (1, r)
    | _ => (1, l)
  let digits := signAndRest.2.takeWhile Char.isDigit
  if digits.isEmpty then none
  else some (signAndRest.1 * (digitsValue digits : Int))

/-! ## `parseQuery` (`URLSearchParams` model)

The WHATWG `application/x-www-form-urlencoded` parser: pairs split on `&`,
names/values split at the first `=`, percent-sequences decoded bytewise and
the bytes decoded as UTF-8 with U+FFFD replacement (this decoder never
throws). -/

/-- UTF-8 encoding of one scalar value. -/
def utf8Enc (n : Nat) : List Nat :=
  if n < 128 then [n]
  else if n < 2048 then [192 + n / 64, 128 + n % 64]
  else if n < 65536 then [224 + n / 4096, 128 + (n / 64) % 64, 128 + n % 64]
  else [240 + n / 262144, 128 + (n / 4096) % 64, 128 + (n / 64) % 64, 128 + n % 64]

def strToBytes (l : List Char) : List Nat :=
  l.flatMap (fun c => utf8Enc c.toNat)

/-- Byte length of a string's UTF-8 encoding (`Buffer.length` of a chunk). -/
def utf8SizeOf (s : String) : Nat :=
  (strToBytes s.data).length

def hexOfByte (b : Nat) : Option Nat :=
  hexVal (Char.ofNat b)

/-- Percent-decode a byte string: `%XY` with two hex digits becomes a byte,
anything else passes through. -/
def pctDecodeBytes : List Nat → List Nat
  | [] => []
  | 37 :: b1 :: b2 :: rest =>
    match hexOfByte b1, hexOfByte b2 with
    | some h1, some h2 => (h1 * 16 + h2) :: pctDecodeBytes rest
    | _, _ => 37 :: pctDecodeBytes (b1 :: b2 :: rest)
  | b :: rest => b :: pctDecodeBytes rest

/-- Lossy UTF-8 decoding: a valid sequence yields its scalar, anything else
yields U+FFFD and resumes at the next byte. -/
def utf8LossyDecode (fuel : Nat) (bs : List Nat) : List Char :=
  match fuel, bs with
  | _, [] => []
  | 0, _ => []
  | fuel + 1, b1 :: rest =>
    if b1 < 128 then Char.ofNat b1 :: utf8LossyDecode fuel rest
    else if 194 ≤ b1 && b1 ≤ 223 then
      match rest with
      | b2 :: rest2 =>
        if contIn b2 128 191 then
          Char.ofNat ((b1 - 192) * 64 + (b2 - 128)) :: utf8LossyDecode fuel rest2
        else Char.ofNat 65533 :: utf8LossyDecode fuel rest
      | [] => [Char.ofNat 65533]
    else if 224 ≤ b1 && b1 ≤ 239 then
      match rest with
      | b2 :: b3 :: rest3 =>
        let lo2 := if b1 = 224 then 160 else 128
        let hi2 := if b1 = 237 then 159 else 191
        if contIn b2 lo2 hi2 && contIn b3 128 191 then
          Char.ofNat ((b1 - 224) * 4096 + (b2 - 128) * 64 + (b3 - 128)) ::
            utf8LossyDecode fuel rest3
        else Char.ofNat 65533 :: utf8LossyDecode fuel rest
      | _ => Char.ofNat 65533 :: utf8LossyDecode fuel rest.tail
    else if 240 ≤ b1 && b1 ≤ 244 then
      match rest with
      | b2 :: b3 :: b4 :: rest4 =>
        let lo2 := if b1 = 240 then 144 else 128
        let hi2 := if b1 = 244 then 143 else 191
        if contIn b2 lo2 hi2 && contIn b3 128 191 && contIn b4 128 191 then
          Char.ofNat ((b1 - 240) * 262144 + (b2 - 128) * 4096 + (b3 - 128) * 64 +
            (b4 - 128)) :: utf8LossyDecode fuel rest4
        else Char.ofNat 65533 :: utf8LossyDecode fuel rest
      | _ => Char.ofNat 65533 :: utf8LossyDecode fuel rest.tail
    else Char.ofNat 65533 :: utf8LossyDecode fuel rest

/-- WHATWG percent-decoding of a name or value string. -/
def urlFormDecode (s : String) : String :=
  let bytes := pctDecodeBytes (strToBytes s.data)
  ⟨utf8LossyDecode (bytes.length + 1) bytes⟩

/-- Split the query into `name=value` pairs (empty pieces skipped, first `=`
separates, missing `=` means empty value), decoding both sides. -/
def queryPairs (s : String) : List (String × String) :=
  (((splitStr s '&').filter (· ≠ ""))).map (fun piece =>
    match piece.data.span (fun c => c ≠ '=') with
    | (nameChars, _ :: valChars) => (urlFormDecode ⟨nameChars⟩, urlFormDecode ⟨valChars⟩)
    | (nameChars, []) => (urlFormDecode ⟨nameChars⟩, ""))

/-- A query-parameter value: a single string, or an array when the key
repeats. -/
inductive QVal where
  | one (v : String)
  | many (vs : List String)
  deriving Repr, DecidableEq

/-- The accumulation loop of `parseQuery` (src/unnamed/part_002:63-74). -/
def addQueryPair (m : List (String × QVal)) (k v : String) : List (String × QVal) :=
  match assocGet m k with
  | some (.many l) => assocSet m k (.many (l ++ [v]))
  | some (.one c) => assocSet m k (.many [c, v])
  | none => m ++ [(k, .one v)]

def qvalToPVal : QVal → PVal
  | .one v => PVal.s v
  | .many vs => PVal.a vs

/-- Embeds `parseQuery` (src/unnamed/part_002:57-76): `+` is rewritten to
`%20` up front, then the string goes through `URLSearchParams` (which also
ignores one leading `?`). -/
def parseQuery (str : Option String) : PMap :=
  match str with
  | none => []
  | some s =>
    if s = "" then []
    else
      let plusFixed : String := ⟨s.data.flatMap (fun c =>
        if c = '+' then ['%', '2', '0'] else [c])⟩
      let noMark := if jsStartsWith plusFixed "?" then dropFirstChar plusFixed else plusFixed
      let pairs := queryPairs noMark
      (pairs.foldl (fun m kv => addQueryPair m kv.1 kv.2) []).map
        (fun p => (p.1, qvalToPVal p.2))

/-! ## `JSON.parse` model

A recursive-descent parser for the exact JSON grammar `JSON.parse` accepts.
Number and string tokens are validated and kept raw (the program never looks
inside them); object members use JS property-assignment semantics (a repeated
key keeps its first position and takes its last value). -/

def skipJWs (l : List Char) : List Char :=
  l.dropWhile (fun c => c = ' ' || c = '\t' || c = '\n' || c = '\r')

def isJsonEscChar (c : Char) : Bool :=
  c = '"' || c = '\\' || c = '/' || c = 'b' || c = 'f' || c = 'n' || c = 'r' || c = 't'

/-- Scan a JSON string body after the opening quote; return the raw contents
(escapes intact) and the remainder after the closing quote. -/
def parseStringRaw : List Char → Option (List Char × List Char)
  | [] => none
  | '"' :: rest => some ([], rest)
  | '\\' :: 'u' :: h1 :: h2 :: h3 :: h4 :: rest =>
    if (hexVal h1).isSome && (hexVal h2).isSome && (hexVal h3).isSome && (hexVal h4).isSome then
      match parseStringRaw rest with
      | some (raw, r) => some ('\\' :: 'u' :: h1 :: h2 :: h3 :: h4 :: raw, r)
      | none => none
    else none
  | '\\' :: c :: rest =>
    if c = 'u' then none
    else if isJsonEscChar c then
      match parseStringRaw rest with
      | some (raw, r) => some ('\\' :: c :: raw, r)
      | none => none
    else none
  | '\\' :: [] => none
  | c :: rest =>
    if c.toNat < 32 then none
    else
      match parseStringRaw rest with
      | some (raw, r) => some (c :: raw, r)
      | none => none

/-- Scan a JSON number token; return its raw characters and the remainder. -/
def parseNumberRaw (l : List Char) : Option (List Char × List Char) :=
  let negPart : List Char × List Char :=
    match l with
    | '-' :: r => (['-'], r)
    | _ => ([], l)
  let intPart : Option (List Char × List Char) :=
    match negPart.2 with
    | '0' :: r => some (['0'], r)
    | c :: r =>
      if c.isDigit && c ≠ '0' then
        let ds := r.takeWhile Char.isDigit
        some (c :: ds, r.dropWhile Char.isDigit)
      else none
    | [] => none
  match intPart with
  | none => none
  | some (ip, r1) =>
    let fracPart : Option (List Char × List Char) :=
      match r1 with
      | '.' :: r2 =>
        let ds := r2.takeWhile Char.isDigit
        if ds.isEmpty then none else some ('.' :: ds, r2.dropWhile Char.isDigit)
      | _ => some ([], r1)
    match fracPart with
    | none => none
    | some (fp, r3) =>
      let expPart : Option (List Char × List Char) :=
        match r3 with
        | c :: r4 =>
          if c = 'e' || c = 'E' then
            let signAndRest : List Char × List Char :=
              match r4 with
              | s :: r5 => if s = '+' || s = '-' then ([s], r5) else ([], r4)
              | [] => ([], r4)
            let ds := signAndRest.2.takeWhile Char.isDigit
            if ds.isEmpty then none
            else some (c :: signAndRest.1 ++ ds, signAndRest.2.dropWhile Char.isDigit)
          else some ([], r3)
        | [] => some ([], r3)
      match expPart with
      | none => none
      | some (ep, r6) => some (negPart.1 ++ ip ++ fp ++ ep, r6)

def openBraceChar : Char := Char.ofNat 123
def closeBraceChar : Char := Char.ofNat 125

/-- What the recursive-descent parser is currently parsing: a value, the
remaining elements of an array, or the remaining members of an object. -/
inductive PJob where
  | val
  | elems (acc : List JVal)
  | members (acc : List (String × JVal))

def parseJ : Nat → PJob → List Char → Option (JVal × List Char)
  | 0, _, _ => none
  | fuel + 1, .val, l =>
    match skipJWs l with
    | [] => none
    | c :: rest =>
      if c = 'n' then
        match c :: rest with
        | 'n' :: 'u' :: 'l' :: 'l' :: r => some (.null, r)
        | _ => none
      else if c = 't' then
        match c :: rest with
        | 't' :: 'r' :: 'u' :: 'e' :: r => some (.bool true, r)
        | _ => none
      else if c = 'f' then
        match c :: rest with
        | 'f' :: 'a' :: 'l' :: 's' :: 'e' :: r => some (.bool false, r)
        | _ => none
      else if c = '"' then
        match parseStringRaw rest with
        | some (raw, r) => some (.str ⟨raw⟩, r)
        | none => none
      else if c = '[' then
        match skipJWs rest with
        | ']' :: r2 => some (.arr [], r2)
        | r1 => parseJ fuel (.elems []) r1
      else if c = openBraceChar then
        match skipJWs rest with
        | d :: r2 =>
          if d = closeBraceChar then some (.obj [], r2)
          else parseJ fuel (.members []) (d :: r2)
        | [] => none
      else
        match parseNumberRaw (c :: rest) with
        | some (raw, r) => some (.num ⟨raw⟩, r)
        | none => none
  | fuel + 1, .elems acc, l =>
    match parseJ fuel .val l with
    | none => none
    | some (v, r) =>
      match skipJWs r with
      | ',' :: r2 => parseJ fuel (.elems (acc ++ [v])) r2
      | ']' :: r2 => some (.arr (acc ++ [v]), r2)
      | _ => none
  | fuel + 1, .members acc, l =>
    match skipJWs l with
    | '"' :: r =>
      match parseStringRaw r with
      | none => none
      | some (rawKey, r1) =>
        match skipJWs r1 with
        | ':' :: r3 =>
          match parseJ fuel .val r3 with
          | none => none
          | some (v, r4) =>
            let acc' := assocSet acc ⟨rawKey⟩ v
            match skipJWs r4 with
            | d :: r6 =>
              if d = ',' then parseJ fuel (.members acc') r6
              else if d = closeBraceChar then some (.obj acc', r6)
              else none
            | [] => none
        | _ => none
    | _ => none

/-- `JSON.parse`: parse one value and require only whitespace after it;
any failure is the thrown `SyntaxError`, modelled as `none`. -/
def jsonParse (s : String) : Option JVal :=
  match parseJ (2 * s.data.length + 2) .val s.data with
  | some (v, rest) => if (skipJWs rest).isEmpty then some v else none
  | none => none

/-! ## Body decoding (the POST/PUT `switch` of `endCb`) -/

/-- `Object.entries` of a parsed JSON body value of JS `object` type
(arrays enumerate index keys). -/
def jvalEntries : JVal → PMap
  | .obj fields => fields.map (fun p => (p.1, PVal.j p.2))
  | .arr elems => (elems.enum.map (fun p => (natToString p.1, PVal.j p.2)))
  | _ => []

inductive BodyDecodeRes where
  | halt (code : Nat) (detail : String)
  | proceed (params : PMap)
  deriving Repr

/-- The `application/json` arm: charset guard, `JSON.parse` (a throw leaves
the value `undefined`), then the `bodyParamsObject && typeof === 'object'`
check — which accepts JSON objects and arrays and rejects everything else
(src/unnamed/part_002:816-830). -/
def jsonBodyDecode (contentTypeArgs : List (String × String)) (body : String) : BodyDecodeRes :=
  let charsetBad :=
    match assocGet contentTypeArgs "charset" with
    | some charset => charset ≠ "" && charset ≠ "utf-8"
    | none => false
  if charsetBad then .halt 400 "Bad charset for JSON content type."
  else
    match jsonParse body with
    | some (.obj fields) => .proceed (jvalEntries (.obj fields))
    | some (.arr elems) => .proceed (jvalEntries (.arr elems))
    | some _ => .halt 400 "Unable to parse JSON query parameters."
    | none => .halt 400 "Unable to parse JSON query parameters."

/-- Embeds the body-decoding `switch (contentType)` of `endCb`
(src/unnamed/part_002:810-836), run only for POST/PUT.  `contentType` is
`none` when the request carried no Content-Type header (the `switch` then
falls to `default`). -/
def decodeBodyStage (contentType : Option ContentType) (body : String) : BodyDecodeRes :=
  match contentType with
  | some ct =>
    if ct.type = "application/x-www-form-urlencoded" ||
        ct.type = "application/www-form-urlencoded" then
      .proceed (parseQuery (some body))
    else if ct.type = "application/json" then
      jsonBodyDecode ct.params body
    else .halt 400 "POST or PUT body must be in JSON or www-form-urlencoded format."
  | none => .halt 400 "POST or PUT body must be in JSON or www-form-urlencoded format."

/-! ## Request lifecycle (`requestCb` and its callbacks)

The per-request state machine of src/unnamed/part_002:606-908.  The
transport's behavior is a list of events (`data` chunks, end-of-stream,
stream error, read-timeout firing); processing them through the embedded
`dataCb`/`endCb`/`errorCb`/`timeoutCb` yields an ordered trace of externally
visible actions: responses written, transport destruction, route lookup,
authentication and handler invocations (with the context-field snapshot they
observe), query/body parsing and validator runs.  The asynchronous callbacks
(auth, validators, handler) are injected as their observable outcomes. -/

structure Cfg where
  maxBodySize : Nat
  rejectDangerousPaths : Bool

structure Behavior where
  /-- `this.authCallback`'s awaited result; `none` = it throws/rejects. -/
  authResult : Option Bool := some true
  /-- `this.callback` (the fallback handler): `some h` when configured,
  where `h` is that handler's outcome (`none` = it throws). -/
  fallback : Option (Option Bool) := none

structure HttpReq where
  method : String
  url : String
  /-- Header values; `""` doubles as "absent" (both are falsy in the JS). -/
  transferEncoding : String := ""
  contentLength : String := ""
  contentType : String := ""

/-- Snapshot of the four parameter fields of the request context `r`. -/
structure Snap where
  params : Option PMap
  pathParams : Option PMap
  urlParams : Option PMap
  bodyParams : Option PMap
  deriving Repr

inductive Action where
  /-- `error(res, code, text)`: one response written. -/
  | respond (code : Nat) (detail : Option String)
  /-- `jsonError(res, code, message)`: one response written. -/
  | respondJson (code : Nat)
  /-- `req.destroy()`. -/
  | destroy
  /-- `this.#matchRequestHandler` returned; carries whether a handler entry
  matched and the path parameters the matcher extracted. -/
  | routeLookup (found : Bool) (pathParams : Params)
  /-- `await this.authCallback(r)` with the context fields `r` holds then. -/
  | authCall (snap : Snap)
  /-- `parseQuery(rawQueryString)` for the URL parameters. -/
  | parseUrlParams
  /-- the body-decoding `switch` ran (POST/PUT only). -/
  | parseBody
  /-- `runValidator` invoked the named validator. -/
  | validatorRun (descr : String)
  /-- `await handler.call(this, r)` with the context fields it sees. -/
  | handlerCall (snap : Snap)
  deriving Repr

/-- `runValidator` (src/unnamed/part_002:776-789): an object result passes
through, a non-object result is a 500, a throw is a 400 carrying the error
message when non-empty. -/
def runValidatorModel (f : PMap → VOut) (value : PMap) (descr : String) :
    Except Action PMap :=
  match f value with
  | .obj m => .ok m
  | .nonObj => .error (.respond 500 (some (descr ++ " validator must return an object.")))
  | .raise msg =>
    .error (.respond 400 (some (if msg ≠ "" then msg else "Invalid " ++ descr ++ ".")))

/-- Run an optional validator, recording its invocation. -/
def validatorStage (v : Option (PMap → VOut)) (value : PMap) (descr : String) :
    List Action × Except Action PMap :=
  match v with
  | none => ([], .ok value)
  | some f => ([.validatorRun descr], runValidatorModel f value descr)

/-- Stages 4-7 after a successful body decode: body validator, merge, merged
validator, handler invocation (src/unnamed/part_002:838-871). -/
def afterBody (a : List Action) (hopts : Option HOpts) (handlerRes : Option Bool)
    (npp : PMap) (urlParams : Option PMap) (bp : PMap) : List Action :=
  match validatorStage (hopts.bind (·.bodyV)) bp "body parameters" with
  | (a1, .error act) => a ++ a1 ++ [act]
  | (a1, .ok ebp) =>
    match validatorStage (hopts.bind (·.paramsV))
        (mergeParams ebp (urlParams.getD []) npp urlParams.isNone).1
        "request parameters" with
    | (a2, .error act) => a ++ a1 ++ a2 ++ [act]
    | (a2, .ok finalParams) =>
      match handlerRes with
      | none =>
        a ++ a1 ++ a2 ++
          [.handlerCall ⟨some finalParams, some npp, urlParams, some ebp⟩,
           .respond 500 (some "Request handler fails to execute.")]
      | some _ =>
        a ++ a1 ++ a2 ++ [.handlerCall ⟨some finalParams, some npp, urlParams, some ebp⟩]

/-- Stage 4: decode the body for POST/PUT (src/unnamed/part_002:809-836),
then continue. -/
def afterUrl (a : List Action) (hopts : Option HOpts) (handlerRes : Option Bool)
    (npp : PMap) (urlParams : Option PMap) (ctOpt : Option ContentType)
    (body : String) (reqMethod : String) : List Action :=
  if reqMethod = "POST" || reqMethod = "PUT" then
    match decodeBodyStage ctOpt body with
    | .halt code detail => a ++ [.parseBody, .respond code (some detail)]
    | .proceed bp => afterBody (a ++ [.parseBody]) hopts handlerRes npp urlParams bp
  else afterBody a hopts handlerRes npp urlParams []

/-- Stages 2-3 after authentication succeeded: path-params validator, query
parsing and validator (src/unnamed/part_002:774-808), then the rest. -/
def dispatchAfterAuth (hopts : Option HOpts) (handlerRes : Option Bool)
    (pathParams : Params) (rawQS : Option String) (ctOpt : Option ContentType)
    (body : String) (reqMethod : String) : List Action :=
  match validatorStage (hopts.bind (·.pathV)) pathParams "path parameters" with
  | (a1, .error act) => a1 ++ [act]
  | (a1, .ok npp) =>
    if (hopts.map (·.ignoreUrlParams)).getD false then
      afterUrl a1 hopts handlerRes npp none ctOpt body reqMethod
    else
      match validatorStage (hopts.bind (·.urlV)) (parseQuery rawQS) "URL parameters" with
      | (a2, .error act) => a1 ++ [.parseUrlParams] ++ a2 ++ [act]
      | (a2, .ok up) =>
        afterUrl (a1 ++ [.parseUrlParams] ++ a2) hopts handlerRes npp (some up) ctOpt
          body reqMethod

/-- The authentication gate (src/unnamed/part_002:772-774,872-874): the
context snapshot it observes has all four parameter fields unset; a throw is
caught as a 500; a falsy result ends processing with no response. -/
def authAndGo (beh : Behavior) (hopts : Option HOpts) (handlerRes : Option Bool)
    (pathParams : Params) (rawQS : Option String) (ctOpt : Option ContentType)
    (body : String) (reqMethod : String) : List Action :=
  Action.authCall ⟨none, none, none, none⟩ ::
    match beh.authResult with
    | none => [.respond 500 (some "Request handler fails to execute.")]
    | some false => []
    | some true => dispatchAfterAuth hopts handlerRes pathParams rawQS ctOpt body reqMethod

/-- Route resolution and 404/405 handling (src/unnamed/part_002:752-771);
a `describePath` throw from lookup is caught by the surrounding `try` as a
500. -/
def endCbDispatch (beh : Behavior) (reg : Registry) (req : HttpReq) (rUrl : String)
    (rawQS : Option String) (ctOpt : Option ContentType) (body : String) : List Action :=
  match matchRequestHandler reg req.method rUrl with
  | .error _ => [.respond 500 (some "Request handler fails to execute.")]
  | .ok (some (e, pp)) =>
    .routeLookup true pp :: authAndGo beh e.opts e.handlerResult pp rawQS ctOpt body req.method
  | .ok none =>
    match beh.fallback with
    | some hres =>
      .routeLookup false [] :: authAndGo beh none hres [] rawQS ctOpt body req.method
    | none =>
      match hasHandlerForOtherMethod reg req.method rUrl with
      | .error _ =>
        [.routeLookup false [], .respond 500 (some "Request handler fails to execute.")]
      | .ok true => [.routeLookup false [], .respondJson 405]
      | .ok false => [.routeLookup false [], .respondJson 404]

/-- Content-Type header parsing step of `endCb`
(src/unnamed/part_002:676-685). -/
def endCbCT (req : HttpReq) : Except (List Action) (Option ContentType) :=
  if req.contentType = "" then .ok none
  else
    match parseContentType req.contentType with
    | some ct => .ok (some ct)
    | none => .error [.respond 400 (some "Unable to parse content-type.")]

/-- `req.url.match(/^([^\?]*)\?(.*)$/)`: split at the first `?` provided the
remainder contains no line terminator (`.` does not match those). -/
def urlSplit (url : String) : String × Option String :=
  match url.data.span (fun c => c ≠ '?') with
  | (pre, _ :: post) =>
    if post.all isDotChar then (⟨pre⟩, some ⟨post⟩) else (url, none)
  | (_, []) => (url, none)

/-- The method `switch` of `endCb` (src/unnamed/part_002:687-717), yielding
`r.url` and the raw query string. -/
def endCbMethodSwitch (req : HttpReq) (body : String) :
    Except (List Action) (String × Option String) :=
  if req.method = "POST" || req.method = "PUT" then
    if jsHasChar req.url '?' then
      .error [.respond 400 (some "URL for POST or PUT must not contain query parameters.")]
    else .ok (req.url, none)
  else if req.method = "GET" || req.method = "DELETE" then
    if body ≠ "" then
      .error [.respond 400 (some ("Empty body required for " ++ req.method ++ " requests."))]
    else .ok (urlSplit req.url)
  else .error [.respond 405 (some "Only GET, POST, PUT, and DELETE are allowed.")]

/-- The dangerous-path gate (src/unnamed/part_002:718-724). -/
def endCbDanger (cfg : Cfg) (rUrl : String) : Except (List Action) Unit :=
  if cfg.rejectDangerousPaths then
    match detectDangerousPath rUrl with
    | some reason => .error [.respond 400 (some reason)]
    | none => .ok ()
  else .ok ()

/-- Embeds `endCb` (src/unnamed/part_002:663-884) from the point where the
request was marked completed: Content-Length consistency, content-type
parsing, the method switch, the dangerous-path gate, then dispatch. -/
def endCbModel (cfg : Cfg) (beh : Behavior) (reg : Registry) (req : HttpReq)
    (declaredCL : Option Int) (body : String) : List Action :=
  if (match declaredCL with
      | some n => decide ((utf8SizeOf body : Int) ≠ n)
      | none => false) then
    [.respond 400 (some "Request body length does not match Content-Length.")]
  else
    match endCbCT req with
    | .error acts => acts
    | .ok ctOpt =>
      match endCbMethodSwitch req body with
      | .error acts => acts
      | .ok (rUrl, rawQS) =>
        match endCbDanger cfg rUrl with
        | .error acts => acts
        | .ok _ => endCbDispatch beh reg req rUrl rawQS ctOpt body

structure LState where
  completed : Bool
  body : String
  bodySize : Nat

inductive REvent where
  | data (chunk : String)
  | endOfStream
  | ioError
  | timerFire

/-- One transport event through `dataCb`/`endCb`/`errorCb`/`timeoutCb`
(src/unnamed/part_002:630-907).  Chunk sizes count bytes, as `Buffer.length`
does.  Timer cancellation needs no extra state: a `timerFire` delivered
after completion is ignored exactly as a cleared timer never fires. -/
def stepEvent (cfg : Cfg) (beh : Behavior) (reg : Registry) (req : HttpReq)
    (declaredCL : Option Int) (st : LState) (ev : REvent) : LState × List Action :=
  match ev with
  | .data chunk =>
    if st.completed then (st, [])
    else
      if (match declaredCL with
          | some n => decide ((st.bodySize + utf8SizeOf chunk : Int) > n)
          | none => false) then
        ({ st with completed := true, bodySize := st.bodySize + utf8SizeOf chunk },
         [.respond 400 (some "Request body longer than Content-Length."), .destroy])
      else if cfg.maxBodySize ≠ 0 &&
          decide (st.bodySize + utf8SizeOf chunk > cfg.maxBodySize) then
        ({ st with completed := true, bodySize := st.bodySize + utf8SizeOf chunk },
         [.respond 413 (some "Request body too large."), .destroy])
      else ({ st with body := st.body ++ chunk, bodySize := st.bodySize + utf8SizeOf chunk }, [])
  | .endOfStream =>
    if st.completed then (st, [])
    else ({ st with completed := true }, endCbModel cfg beh reg req declaredCL st.body)
  | .ioError =>
    if st.completed then (st, [])
    else ({ st with completed := true },
      [.respond 400 (some "Error occured while reading the request data.")])
  | .timerFire =>
    if st.completed then (st, [])
    else ({ st with completed := true },
      [.respond 408 (some "Timeout occured while reading the request data.")])

def runEvents (cfg : Cfg) (beh : Behavior) (reg : Registry) (req : HttpReq)
    (declaredCL : Option Int) : LState → List REvent → LState × List Action
  | st, [] => (st, [])
  | st, ev :: rest =>
    let s1 := stepEvent cfg beh reg req declaredCL st ev
    let s2 := runEvents cfg beh reg req declaredCL s1.1 rest
    (s2.1, s1.2 ++ s2.2)

/-- The entry guards of `requestCb` (src/unnamed/part_002:610-628), run
before any body reading: Transfer-Encoding/Content-Length conflict, the
Content-Length well-formedness check, and the Content-Length 413 pre-check. -/
def preCheck (cfg : Cfg) (req : HttpReq) : Except (List Action) (Option Int) :=
  if req.transferEncoding ≠ "" && req.contentLength ≠ "" then
    .error [.respond 400 (some "Both Transfer-Encoding and Content-Length defined.")]
  else if req.contentLength ≠ "" then
    match parseIntJS req.contentLength with
    | none => .error [.respond 400 (some "Bad Content-Length header.")]
    | some n =>
      if n < 0 || n > (maxSafeInt : Int) then
        .error [.respond 400 (some "Bad Content-Length header.")]
      else if cfg.maxBodySize ≠ 0 && decide (n > (cfg.maxBodySize : Int)) then
        .error [.respond 413 (some "Request body too large."), .destroy]
      else .ok (some n)
  else .ok none

/-- Embeds `requestCb` (src/unnamed/part_002:606-908): entry guards, then
the event-driven read loop; the trace is every externally visible action in
order. -/
def processRequest (cfg : Cfg) (beh : Behavior) (reg : Registry) (req : HttpReq)
    (events : List REvent) : List Action :=
  match preCheck cfg req with
  | .error acts => acts
  | .ok declaredCL => (runEvents cfg beh reg req declaredCL ⟨false, "", 0⟩ events).2

/-! ## Association-list lemmas -/

theorem assocGet_assocSet_self (l : List (String × α)) (k : String) (v : α) :
    assocGet (assocSet l k v) k = some v := by
  induction l with
  | nil => simp [assocSet, assocGet]
  | cons p rest ih =>
    by_cases h : p.1 = k
    · simp [assocSet, h, assocGet, List.find?]
    · simpa [assocSet, h, assocGet, List.find?] using ih

theorem assocGet_assocSet_ne (l : List (String × α)) (k k' : String) (v : α)
    (h : k' ≠ k) : assocGet (assocSet l k v) k' = assocGet l k' := by
  induction l with
  | nil => simp [assocSet, assocGet, List.find?, Ne.symm h]
  | cons p rest ih =>
    by_cases hp : p.1 = k
    · simp [assocSet, hp, assocGet, List.find?, Ne.symm h, hp ▸ (Ne.symm h)]
    · by_cases hp' : p.1 = k'
      · have hne : ¬ k' = k := hp' ▸ hp
        simp [assocSet, hp, assocGet, List.find?, hp', hne]
      · simpa [assocSet, hp, assocGet, List.find?, hp'] using ih

/-- Keys not named by `source` are untouched by `assignParams`. -/
theorem assignParams_get_not_mem (source : PMap) (target : PMap) (st : String)
    (sources : List (String × String)) (k : String)
    (hk : k ∉ source.map Prod.fst) :
    assocGet (assignParams target source st sources).1 k = assocGet target k := by
  induction source generalizing target sources with
  | nil => simp [assignParams]
  | cons p rest ih =>
    simp only [List.map_cons, List.mem_cons] at hk
    push_neg at hk
    simp only [assignParams]
    rw [ih _ _ hk.2, assocGet_assocSet_ne _ _ _ _ hk.1]

/-- A key bound by `source` (whose keys are distinct, as `Object.entries`
guarantees) ends up bound to `source`'s value after `assignParams`. -/
theorem assignParams_get (source : PMap) (target : PMap) (st : String)
    (sources : List (String × String)) (k : String) (v : PVal)
    (hnd : (source.map Prod.fst).Nodup) (hk : assocGet source k = some v) :
    assocGet (assignParams target source st sources).1 k = some v := by
  induction source generalizing target sources with
  | nil => simp [assocGet, List.find?] at hk
  | cons p rest ih =>
    simp only [List.map_cons, List.nodup_cons] at hnd
    by_cases h : p.1 = k
    · have hv : p.2 = v := by
        simpa [assocGet, List.find?, h] using hk
      simp only [assignParams]
      rw [assignParams_get_not_mem rest _ _ _ k (h ▸ hnd.1), h, hv,
        assocGet_assocSet_self]
    · have hk' : assocGet rest k = some v := by
        simpa [assocGet, List.find?, h] using hk
      simp only [assignParams]
      exact ih _ _ hnd.2 hk'

/-! ## Claims -/

/-- **C1, counterexample.**  The claim demands *exactly one* collision
diagnostic for a key bound by all three sources.  With
`bodyParams = ⦃a:1⦄`, `urlParams = ⦃a:2⦄`, `pathParams = ⦃a:3⦄` the merge
emits one diagnostic per overwrite — query-over-body and path-over-query —
so two diagnostics mention the key `a`, not one. -/
theorem C1_counterexample :
    ¬ ((mergeParams [("a", PVal.n 1)] [("a", PVal.n 2)] [("a", PVal.n 3)] false).2.countP
        (fun w => w.1 == "a") = 1) := by decide

/-- **C1 (amended).**  Merge precedence is body → query → path, each later
source overwriting identically-named keys: on the claim's example the merged
value of `a` is the path value `3`, with exactly *two* collision diagnostics
for `a` (query overriding body, then path overriding query); and in general
a key bound by the path parameters ends up with its path value after the
merge. -/
theorem C1_merge_precedence :
    ((mergeParams [("a", PVal.n 1)] [("a", PVal.n 2)] [("a", PVal.n 3)] false).1 =
        [("a", PVal.n 3)] ∧
      (mergeParams [("a", PVal.n 1)] [("a", PVal.n 2)] [("a", PVal.n 3)] false).2 =
        [("a", "query", "body"), ("a", "path", "query")]) ∧
    ∀ (b q p : PMap) (k : String) (v : PVal),
      (p.map Prod.fst).Nodup → assocGet p k = some v →
      assocGet (mergeParams b q p false).1 k = some v := by
  refine ⟨⟨rfl, rfl⟩, ?_⟩
  intro b q p k v hnd hk
  unfold mergeParams
  exact assignParams_get p _ _ _ k v hnd hk

/-- **C1, witness** for the amended theorem's general part. -/
theorem C1_merge_precedence_witness :
    assocGet (mergeParams [("z", PVal.n 1)] [] [("z", PVal.n 9)] false).1 "z" =
      some (PVal.n 9) :=
  C1_merge_precedence.2 [("z", PVal.n 1)] [] [("z", PVal.n 9)] "z" (PVal.n 9)
    (by decide) rfl

/-! ## C8: `requestHandleDelete` -/

/-- Does the store hold an entry keyed by this literal path (in either the
exact or the dynamic map)? -/
def storeHasPath (store : Store) (path : String) : Bool :=
  assocHas store.exact path || assocHas store.dynamic path

/-- Spec-side description of the wildcard delete's report: "whether anything
was removed" — some method's store held the literal path. -/
def specWildcardRemoved (reg : Registry) (path : String) : Bool :=
  reg.any (fun p => storeHasPath p.2 path)

/-- Spec-side description of the wildcard delete's effect: "removes the
literal path from every method's stores, pruning now-empty stores". -/
def specWildcardRegistry (reg : Registry) (path : String) : Registry :=
  (reg.map (fun p => (p.1, (removeFromStore p.2 path).1))).filter
    (fun p => !(p.2.exact.isEmpty && p.2.dynamic.isEmpty))

theorem assocDelete_snd (l : List (String × α)) (k : String) :
    (assocDelete l k).2 = assocHas l k := by
  induction l with
  | nil => simp [assocDelete, assocHas]
  | cons p rest ih =>
    by_cases h : p.1 = k
    · simp [assocDelete, h, assocHas]
    · simpa [assocDelete, h, assocHas] using ih

theorem removeFromStore_snd (store : Store) (path : String) :
    (removeFromStore store path).2 = storeHasPath store path := by
  simp [removeFromStore, assocDelete_snd, storeHasPath]

/-- The accumulator loop of the wildcard branch computes exactly the
spec-side map/filter/any description. -/
theorem wildcardDelete_eq (reg : Registry) (path : String) :
    wildcardDelete reg path =
      (specWildcardRemoved reg path, specWildcardRegistry reg path) := by
  induction reg with
  | nil => simp [wildcardDelete, specWildcardRemoved, specWildcardRegistry]
  | cons p rest ih =>
    simp only [wildcardDelete, ih, specWildcardRemoved, specWildcardRegistry,
      List.any_cons, List.map_cons, List.filter_cons, removeFromStore_snd]
    by_cases h : ((removeFromStore p.2 path).1.exact.isEmpty &&
        (removeFromStore p.2 path).1.dynamic.isEmpty) = true
    · simp [h]
    · simp [h]

/-- Is an entry registered under `(method, path)` — for the wildcard, under
any method? -/
def registeredUnder (reg : Registry) (method path : String) : Bool :=
  if method = "*" then specWildcardRemoved reg path
  else
    match assocGet reg (asciiUpper method) with
    | some store => storeHasPath store path
    | none => false

/-- **C8.**  For every method that is a letter-case variant of
GET/POST/PUT/DELETE or the wildcard `*`, and every path starting with `/`
with no entry registered under `(method, path)`, `requestHandleDelete`
returns `false` without raising; and the wildcard delete removes the literal
path from every method's stores, prunes now-empty stores, and reports
whether anything was removed. -/
theorem C8_requestHandleDelete :
    (∀ (reg : Registry) (method path : String),
        jsStartsWith path "/" = true →
        (method = "*" ∨ SUPPORTED_METHODS.contains (asciiUpper method) = true) →
        registeredUnder reg method path = false →
        ∃ reg', requestHandleDelete reg method path = .ok (false, reg')) ∧
    (∀ (reg : Registry) (path : String), jsStartsWith path "/" = true →
        requestHandleDelete reg "*" path =
          .ok (specWildcardRemoved reg path, specWildcardRegistry reg path)) := by
  have hwild : ∀ (reg : Registry) (path : String), jsStartsWith path "/" = true →
      requestHandleDelete reg "*" path =
        .ok (specWildcardRemoved reg path, specWildcardRegistry reg path) := by
    intro reg path hp
    simp [requestHandleDelete, hp, wildcardDelete_eq]
  refine ⟨?_, hwild⟩
  intro reg method path hp hm hreg
  by_cases hstar : method = "*"
  · subst hstar
    refine ⟨specWildcardRegistry reg path, ?_⟩
    rw [hwild reg path hp]
    simp only [registeredUnder, if_true] at hreg
    rw [hreg]
  · have hsup : SUPPORTED_METHODS.contains (asciiUpper method) = true := by
      rcases hm with h | h
      · exact absurd h hstar
      · exact h
    simp only [registeredUnder, if_neg hstar] at hreg
    simp only [requestHandleDelete, hp, Bool.not_true, if_neg hstar]
    simp only [normalizeMethod, hsup, if_pos]
    match hget : assocGet reg (asciiUpper method) with
    | none => exact ⟨reg, by simp⟩
    | some store =>
      rw [hget] at hreg
      simp only [] at hreg
      have hrem : (removeFromStore store path).2 = false := by
        rw [removeFromStore_snd]
        exact hreg
      by_cases hempty : ((removeFromStore store path).1.exact.isEmpty &&
          (removeFromStore store path).1.dynamic.isEmpty) = true
      · exact ⟨(assocDelete reg (asciiUpper method)).1, by simp [hempty, hrem]⟩
      · refine ⟨assocSet reg (asciiUpper method) (removeFromStore store path).1, ?_⟩
        simp only [Bool.not_eq_true] at hempty
        simp [hempty, hrem]

/-- **C8, witness**: a concrete registry holding only `GET /x`; deleting
`post /y` (mixed case, unregistered) reports `false`, and a wildcard delete
of an unregistered path reports `false` leaving the registry as the spec
describes. -/
theorem C8_requestHandleDelete_witness :
    (∃ reg', requestHandleDelete
        [("GET", ⟨[("/x", ⟨⟨true, "/x", [.literal "x"], false, false, 1, [1, 0]⟩,
          none, some true⟩)], []⟩)] "post" "/y" = .ok (false, reg')) ∧
    ((∃ reg', requestHandleDelete
        [("GET", ⟨[("/x", ⟨⟨true, "/x", [.literal "x"], false, false, 1, [1, 0]⟩,
          none, some true⟩)], []⟩)] "*" "/y" = .ok (false, reg')) ∧
      requestHandleDelete ([] : Registry) "*" "/q" = .ok (false, [])) := by
  refine ⟨?_, ?_, ?_⟩
  · exact C8_requestHandleDelete.1
      [("GET", ⟨[("/x", ⟨⟨true, "/x", [.literal "x"], false, false, 1, [1, 0]⟩,
        none, some true⟩)], []⟩)] "post" "/y" rfl (Or.inr rfl) rfl
  · exact C8_requestHandleDelete.1
      [("GET", ⟨[("/x", ⟨⟨true, "/x", [.literal "x"], false, false, 1, [1, 0]⟩,
        none, some true⟩)], []⟩)] "*" "/y" rfl (Or.inl rfl) rfl
  · exact (C8_requestHandleDelete.2 [] "/q" rfl).trans rfl

/-! ## C5: exact-literal lookup and trailing slashes -/

theorem string_ext {a b : String} (h : a.data = b.data) : a = b := by
  cases a; cases b; simp_all

theorem dropLastChar_append_slash (t : String) : dropLastChar (t ++ "/") = t := by
  simp [dropLastChar]

theorem jsEndsWith_append_slash (t : String) : jsEndsWith (t ++ "/") "/" = true := by
  simp [jsEndsWith, List.isPrefixOf]

theorem jsLength_append_slash (t : String) : jsLength (t ++ "/") = jsLength t + 1 := by
  simp [jsLength]

/-- A string ending in `/` is its own init with `/` appended. -/
theorem eq_dropLast_append_slash {p : String} (h : jsEndsWith p "/" = true) :
    p = dropLastChar p ++ "/" := by
  apply string_ext
  simp only [jsEndsWith] at h
  match hd : p.data.reverse with
  | [] => rw [hd] at h; simp [List.isPrefixOf] at h
  | c :: rest =>
    rw [hd] at h
    simp only [List.isPrefixOf, Bool.and_eq_true, beq_iff_eq] at h
    have hc : c = '/' := h.1.symm
    have hp : p.data = rest.reverse ++ [c] := by
      have h2 := congrArg List.reverse hd
      simpa using h2
    have hdl : (dropLastChar p).data = p.data.dropLast := rfl
    rw [String.data_append, hdl, hp, hc]
    simp

/-- Every ok-result of the compiler records the input string as `template`. -/
theorem compile_template {t : String} {c : PathTemplate}
    (hc : compilePathTemplate t = .ok c) : c.template = t := by
  unfold compilePathTemplate at hc
  split at hc
  · cases hc
  · split at hc
    · cases hc; rfl
    · split at hc
      · cases hc
      · cases hc; rfl

/-- A path starting with `/` never makes `describePath` throw. -/
theorem describePath_ok {p : String} (hp : jsStartsWith p "/" = true) :
    ∃ pi, describePath p = .ok pi := by
  unfold describePath
  simp only [hp]
  repeat' split
  all_goals first
    | exact ⟨_, rfl⟩
    | simp_all

/-- Ok-results of the compiler come from templates starting with `/`. -/
theorem compile_startsWith {t : String} {c : PathTemplate}
    (hc : compilePathTemplate t = .ok c) : jsStartsWith t "/" = true := by
  unfold compilePathTemplate at hc
  split at hc
  · cases hc
  · simp_all

/-- A compiled template string is nonempty. -/
theorem compile_len_pos {t : String} {c : PathTemplate}
    (hc : compilePathTemplate t = .ok c) : 0 < jsLength t := by
  have h := compile_startsWith hc
  cases hd : t.data with
  | nil => rw [jsStartsWith, hd] at h; simp [List.isPrefixOf] at h
  | cons a l => simp [jsLength, hd]

/-- **C5.**  In a store holding exactly one exact-literal template `t`
(compiled to `c`), lookup of a request path `p` starting with `/` succeeds
iff `p` is literally `t`, or `t` declares no trailing slash and `p` is `t`
with a single trailing slash appended.  In particular a template with a
trailing slash matches only the slash form, and one without matches both
forms. -/
theorem C5_exact_trailing_slash (t p : String) (c : PathTemplate)
    (opts : Option HOpts) (hres : Option Bool)
    (hc : compilePathTemplate t = .ok c) (_hex : c.isExact = true)
    (hp : jsStartsWith p "/" = true) :
    (∃ r, findMatchInStore ⟨[(c.template, ⟨c, opts, hres⟩)], []⟩ p = .ok (some r)) ↔
      (p = t ∨ (c.hasTrailingSlash = false ∧ p = t ++ "/")) := by
  have htmpl : c.template = t := compile_template hc
  subst htmpl
  obtain ⟨pi, hpi⟩ := describePath_ok hp
  by_cases h1 : c.template = p
  · subst h1
    constructor
    · intro _; exact Or.inl rfl
    · intro _
      refine ⟨(⟨c, opts, hres⟩, []), ?_⟩
      simp [findMatchInStore, exactProbe, assocGet, List.find?]
  · have hget : assocGet [(c.template, (⟨c, opts, hres⟩ : Entry))] p = none := by
      simp [assocGet, List.find?, h1]
    by_cases h2 : (decide (jsLength p > 1) && jsEndsWith p "/") = true
    · by_cases h3 : c.template = dropLastChar p
      · have hends : jsEndsWith p "/" = true := (Bool.and_eq_true _ _ ▸ h2).2
        have hpeq : p = c.template ++ "/" := by
          rw [h3]; exact eq_dropLast_append_slash hends
        have hget2 : assocGet [(c.template, (⟨c, opts, hres⟩ : Entry))] (dropLastChar p)
            = some ⟨c, opts, hres⟩ := by
          simp [assocGet, List.find?, ← h3]
        by_cases h4 : c.hasTrailingSlash = true
        · -- the probed entry itself requires a trailing slash: rejected
          have hprobe : exactProbe ⟨[(c.template, ⟨c, opts, hres⟩)], []⟩ p = none := by
            simp [exactProbe, hget, h2, hget2, h4]
          constructor
          · rintro ⟨r, hr⟩
            rw [findMatchInStore, hprobe, hpi] at hr
            simp [findDynamic] at hr
          · rintro (h | ⟨hts, -⟩)
            · exact absurd h (Ne.symm h1)
            · rw [h4] at hts; cases hts
        · simp only [Bool.not_eq_true] at h4
          have hprobe : exactProbe ⟨[(c.template, ⟨c, opts, hres⟩)], []⟩ p
              = some ⟨c, opts, hres⟩ := by
            simp [exactProbe, hget, h2, hget2, h4]
          constructor
          · intro _; exact Or.inr ⟨h4, hpeq⟩
          · intro _
            refine ⟨(⟨c, opts, hres⟩, []), ?_⟩
            rw [findMatchInStore, hprobe]
      · have hget2 : assocGet [(c.template, (⟨c, opts, hres⟩ : Entry))] (dropLastChar p)
            = none := by
          simp [assocGet, List.find?, h3]
        have hprobe : exactProbe ⟨[(c.template, ⟨c, opts, hres⟩)], []⟩ p = none := by
          simp [exactProbe, hget, h2, hget2]
        constructor
        · rintro ⟨r, hr⟩
          rw [findMatchInStore, hprobe, hpi] at hr
          simp [findDynamic] at hr
        · rintro (h | ⟨-, happ⟩)
          · exact absurd h (Ne.symm h1)
          · exact absurd (happ ▸ (dropLastChar_append_slash c.template).symm) h3
    · have hprobe : exactProbe ⟨[(c.template, ⟨c, opts, hres⟩)], []⟩ p = none := by
        simp only [exactProbe, hget, h2]
        simp
      constructor
      · rintro ⟨r, hr⟩
        rw [findMatchInStore, hprobe, hpi] at hr
        simp [findDynamic] at hr
      · rintro (h | ⟨-, happ⟩)
        · exact absurd h (Ne.symm h1)
        · refine absurd ?_ h2
          subst happ
          have hlen : 0 < jsLength c.template := compile_len_pos hc
          simp only [jsLength_append_slash, jsEndsWith_append_slash, Bool.and_true,
            decide_eq_true_eq]
          omega

/-- **C5, witness**: template `/needs-slash/` matches request `/needs-slash/`
but not `/needs-slash`. -/
theorem C5_exact_trailing_slash_witness :
    (∃ r, findMatchInStore
        ⟨[("/needs-slash/", ⟨⟨true, "/needs-slash/", [.literal "needs-slash"],
          true, false, 1, [1, 0]⟩, none, some true⟩)], []⟩ "/needs-slash/" =
      .ok (some r)) ∧
    ¬ (∃ r, findMatchInStore
        ⟨[("/needs-slash/", ⟨⟨true, "/needs-slash/", [.literal "needs-slash"],
          true, false, 1, [1, 0]⟩, none, some true⟩)], []⟩ "/needs-slash" =
      .ok (some r)) := by
  have h1 := C5_exact_trailing_slash "/needs-slash/" "/needs-slash/"
    ⟨true, "/needs-slash/", [.literal "needs-slash"], true, false, 1, [1, 0]⟩
    none (some true) rfl rfl rfl
  have h2 := C5_exact_trailing_slash "/needs-slash/" "/needs-slash"
    ⟨true, "/needs-slash/", [.literal "needs-slash"], true, false, 1, [1, 0]⟩
    none (some true) rfl rfl rfl
  constructor
  · exact h1.mpr (Or.inl rfl)
  · intro hfound
    rcases h2.mp hfound with h | ⟨hts, -⟩
    · exact absurd h (by decide)
    · simp at hts

/-! ## C2: splat capture-length selection -/

/-- A candidate capture length the claim calls valid: within
`[minItems, min(maxItems, available − minSegmentsFrom[next])]`, its slice
URL-decodes, and the remainder of the template matches what is left. -/
def splatValidLen (minItems maxItems : Nat) (rest : List Seg) (rs : List String)
    (len : Nat) : Prop :=
  minItems ≤ len ∧
  (len : Int) ≤ min (maxItems : Int) ((rs.length : Int) - (minSegsOf rest : Int)) ∧
  (decodeSlice (rs.take len)).isSome = true ∧
  (matchSegs rest (rs.drop len)).isSome = true

instance (minItems maxItems : Nat) (rest : List Seg) (rs : List String) (len : Nat) :
    Decidable (splatValidLen minItems maxItems rest rs len) := by
  unfold splatValidLen; infer_instance

theorem firstLen_none (f : Nat → LoopStep) (len fuel : Nat)
    (h : ∀ l, len ≤ l → l < len + fuel → f l = .next) :
    firstLen f len fuel = none := by
  induction fuel generalizing len with
  | zero => rfl
  | succ n ih =>
    have hl : f len = .next := h len le_rfl (by omega)
    simp only [firstLen, hl]
    exact ih (len + 1) (fun l h1 h2 => h l (by omega) (by omega))

theorem firstLen_found (f : Nat → LoopStep) (len fuel target : Nat) (p : Params)
    (hrange : len ≤ target) (hlt : target < len + fuel)
    (hmid : ∀ l, len ≤ l → l < target → f l = .next)
    (hf : f target = .found p) :
    firstLen f len fuel = some p := by
  induction fuel generalizing len with
  | zero => omega
  | succ n ih =>
    by_cases he : len = target
    · subst he; simp [firstLen, hf]
    · have hnext : f len = .next := hmid len le_rfl (by omega)
      simp only [firstLen, hnext]
      exact ih (len + 1) (by omega) (by omega) (fun l h1 h2 => hmid l (by omega) h2)

theorem firstLen_some (f : Nat → LoopStep) (len fuel : Nat) (p : Params)
    (h : firstLen f len fuel = some p) :
    ∃ l, len ≤ l ∧ f l = .found p := by
  induction fuel generalizing len with
  | zero => simp [firstLen] at h
  | succ n ih =>
    rw [firstLen] at h
    match hf : f len with
    | .found q => rw [hf] at h; cases h; exact ⟨len, le_rfl, hf⟩
    | .stop => rw [hf] at h; cases h
    | .next =>
      rw [hf] at h
      obtain ⟨l, hl, hfl⟩ := ih (len + 1) h
      exact ⟨l, by omega, hfl⟩

/-- **C2.**  For a splat segment with `1 ≤ minItems` (an invariant of every
compiled splat), the matcher fails outright when no valid capture length
exists, and otherwise captures exactly the *smallest* valid length, binding
the splat to that slice's decoded segments on top of the remainder's match. -/
theorem C2_splat_shortest (name : String) (minItems maxItems : Nat)
    (rest : List Seg) (rs : List String) (hmin : 1 ≤ minItems) :
    ((∀ len, ¬ splatValidLen minItems maxItems rest rs len) →
        matchSegs (.splat name minItems maxItems :: rest) rs = none) ∧
    (∀ len ds m, splatValidLen minItems maxItems rest rs len →
        (∀ l, l < len → ¬ splatValidLen minItems maxItems rest rs l) →
        decodeSlice (rs.take len) = some ds →
        matchSegs rest (rs.drop len) = some m →
        matchSegs (.splat name minItems maxItems :: rest) rs =
          some (assocSet m name (PVal.a ds))) := by
  constructor
  · intro hnone
    by_cases hrs : rs.isEmpty
    · simp [matchSegs, hrs]
    · simp only [matchSegs, hrs, Bool.false_eq_true, if_false]
      by_cases hA : ((rs.length : Int) - (minSegsOf rest : Int)) < (minItems : Int)
      · simp [hA]
      · simp only [hA, if_false]
        by_cases hML : min (maxItems : Int) ((rs.length : Int) - (minSegsOf rest : Int))
            < (minItems : Int)
        · simp [hML]
        · simp only [hML, if_false]
          apply firstLen_none
          intro l hl1 hl2
          have hlle : (l : Int) ≤ min (maxItems : Int)
              ((rs.length : Int) - (minSegsOf rest : Int)) := by
            push_cast at hML hA hl2 ⊢
            omega
          have hlrs : l ≤ rs.length := by
            have := le_min_iff.mp hlle
            omega
          have htake : (rs.take l).length = l := by
            simp [List.length_take, Nat.min_eq_left hlrs]
          simp only [htake, ne_eq, not_true_eq_false, if_false]
          match hdec : decodeSlice (rs.take l) with
          | none => rfl
          | some ds =>
            match hm : matchSegs rest (rs.drop l) with
            | none => rfl
            | some m =>
              exact absurd ⟨hl1, hlle, by simp [hdec], by simp [hm]⟩ (hnone l)
  · intro len ds m hvalid hleast hdec hm
    obtain ⟨hv1, hv2, -, -⟩ := hvalid
    have hrs : rs.isEmpty = false := by
      have := le_min_iff.mp hv2
      rcases rs with - | ⟨a, l⟩
      · simp at this; omega
      · rfl
    have hA : ¬ ((rs.length : Int) - (minSegsOf rest : Int)) < (minItems : Int) := by
      have := le_min_iff.mp hv2
      push_cast at this ⊢
      omega
    have hML : ¬ min (maxItems : Int) ((rs.length : Int) - (minSegsOf rest : Int))
        < (minItems : Int) := by
      have h1 : (minItems : Int) ≤ (len : Int) := by exact_mod_cast hv1
      omega
    simp only [matchSegs, hrs, Bool.false_eq_true, if_false, hA, hML]
    apply firstLen_found _ _ _ len
    · exact hv1
    · have h1 : (len : Int) ≤ min (maxItems : Int)
          ((rs.length : Int) - (minSegsOf rest : Int)) := hv2
      have h2 : (minItems : Int) ≤ min (maxItems : Int)
          ((rs.length : Int) - (minSegsOf rest : Int)) := by omega
      have h3 : ((min (maxItems : Int) ((rs.length : Int) - (minSegsOf rest : Int))
          - (minItems : Int)).toNat : Int) =
          min (maxItems : Int) ((rs.length : Int) - (minSegsOf rest : Int))
            - (minItems : Int) := by omega
      omega
    · intro l hl1 hl2
      have hlle : (l : Int) ≤ min (maxItems : Int)
          ((rs.length : Int) - (minSegsOf rest : Int)) := by
        have : (l : Int) < (len : Int) := by exact_mod_cast hl2
        omega
      have hlrs : l ≤ rs.length := by
        have := le_min_iff.mp hlle
        omega
      have htake : (rs.take l).length = l := by
        simp [List.length_take, Nat.min_eq_left hlrs]
      simp only [htake, ne_eq, not_true_eq_false, if_false]
      match hdec' : decodeSlice (rs.take l) with
      | none => rfl
      | some ds' =>
        match hm' : matchSegs rest (rs.drop l) with
        | none => rfl
        | some m' =>
          exact absurd ⟨hl1, hlle, by simp [hdec'], by simp [hm']⟩ (hleast l hl2)
    · have hlrs : len ≤ rs.length := by
        have := le_min_iff.mp hv2
        omega
      have htake : (rs.take len).length = len := by
        simp [List.length_take, Nat.min_eq_left hlrs]
      simp only [htake, ne_eq, not_true_eq_false, if_false, hdec, hm]

/-- **C2, witness**: for `[p]` (bounds 1..32) followed by nothing, against
two request segments, the smallest valid capture length is 2 (length 1
leaves a segment the empty remainder cannot match), and the matcher indeed
captures both segments. -/
theorem C2_splat_shortest_witness :
    matchSegs [.splat "p" 1 32] ["a", "b"] = some [("p", PVal.a ["a", "b"])] :=
  (C2_splat_shortest "p" 1 32 [] ["a", "b"] (by decide)).2 2 ["a", "b"] []
    (by decide) (by decide) rfl rfl

/-! ## C7: captures versus consumed segments -/

/-- Capture names of a template's segments, in template order. -/
def paramNames : List Seg → List String
  | [] => []
  | .literal _ :: rest => paramNames rest
  | .param n :: rest => n :: paramNames rest
  | .splat n _ _ :: rest => n :: paramNames rest

/-- The segments of `rs` decompose along the template, with every `Param`
capture bound to the URL-decoding of its consumed segment and every `Splat`
capture bound to the decodings of its consumed slice, in template order. -/
def reconstructsFrom : List Seg → List String → Params → Prop
  | [], rs, _ => rs = []
  | .literal v :: rest, rs, m =>
    ∃ r rs', rs = r :: rs' ∧ v = r ∧ reconstructsFrom rest rs' m
  | .param n :: rest, rs, m =>
    ∃ r rs' d, rs = r :: rs' ∧ decodePathSegment r = some d ∧
      assocGet m n = some (PVal.s d) ∧ reconstructsFrom rest rs' m
  | .splat n _ _ :: rest, rs, m =>
    ∃ k ds, decodeSlice (rs.take k) = some ds ∧ assocGet m n = some (PVal.a ds) ∧
      reconstructsFrom rest (rs.drop k) m

/-- `reconstructsFrom` only inspects a parameter map at the template's own
capture names. -/
theorem reconstructsFrom_congr (segs : List Seg) (rs : List String) (m m' : Params)
    (h : reconstructsFrom segs rs m)
    (hag : ∀ x ∈ paramNames segs, assocGet m' x = assocGet m x) :
    reconstructsFrom segs rs m' := by
  induction segs generalizing rs with
  | nil => exact h
  | cons s rest ih =>
    cases s with
    | literal v =>
      obtain ⟨r, rs', hrs, hv, hrec⟩ := h
      exact ⟨r, rs', hrs, hv, ih _ hrec (fun x hx => hag x (by simp [paramNames, hx]))⟩
    | param n =>
      obtain ⟨r, rs', d, hrs, hd, hmn, hrec⟩ := h
      refine ⟨r, rs', d, hrs, hd, ?_, ih _ hrec (fun x hx => hag x (by simp [paramNames, hx]))⟩
      rw [hag n (by simp [paramNames])]; exact hmn
    | splat n mi ma =>
      obtain ⟨k, ds, hdec, hmn, hrec⟩ := h
      refine ⟨k, ds, hdec, ?_, ih _ hrec (fun x hx => hag x (by simp [paramNames, hx]))⟩
      rw [hag n (by simp [paramNames])]; exact hmn

/-- **C7, counterexample.**  The claim says the decoded capture values
reconstruct exactly the request segments the captures consumed.  Template
`/{x}` matched against segment `a%20b` binds `x` to the decoding `a b`,
which is not the consumed segment `a%20b`, so concatenating decoded captures
does not reproduce the consumed (still-encoded) segments. -/
theorem C7_counterexample :
    matchSegs [Seg.param "x"] ["a%20b"] = some [("x", PVal.s "a b")] ∧
      ("a b" : String) ≠ "a%20b" := ⟨rfl, by decide⟩

/-- **C7 (amended).**  For a template whose capture names are distinct, a
successful match decomposes the request segments along the template in
order; each `Param` capture is the URL-*decoding* of its consumed segment
and each `Splat` capture is the list of decodings of its consumed slice —
the captures reconstruct the decoded forms of the consumed segments, not
the raw ones. -/
theorem C7_captures_decode_consumed (segs : List Seg) (rs : List String) (m : Params)
    (hnd : (paramNames segs).Nodup) (hm : matchSegs segs rs = some m) :
    reconstructsFrom segs rs m := by
  induction segs generalizing rs m with
  | nil =>
    simp only [matchSegs] at hm
    by_cases h : rs.isEmpty
    · simpa [reconstructsFrom, List.isEmpty_iff] using h
    · simp [h] at hm
  | cons s rest ih =>
    cases s with
    | literal v =>
      cases rs with
      | nil => simp [matchSegs] at hm
      | cons r rs' =>
        simp only [matchSegs] at hm
        by_cases hv : v = r
        · rw [if_pos hv] at hm
          exact ⟨r, rs', rfl, hv, ih _ _ (by simpa [paramNames] using hnd) hm⟩
        · rw [if_neg hv] at hm; cases hm
    | param n =>
      cases rs with
      | nil => simp [matchSegs] at hm
      | cons r rs' =>
        simp only [matchSegs] at hm
        match hd : decodePathSegment r with
        | none => rw [hd] at hm; cases hm
        | some d =>
          rw [hd] at hm
          match hrest : matchSegs rest rs' with
          | none => rw [hrest] at hm; cases hm
          | some m0 =>
            rw [hrest] at hm
            cases hm
            simp only [paramNames, List.nodup_cons] at hnd
            refine ⟨r, rs', d, rfl, hd, assocGet_assocSet_self _ _ _, ?_⟩
            refine reconstructsFrom_congr rest rs' m0 _ (ih _ _ hnd.2 hrest) ?_
            intro x hx
            exact assocGet_assocSet_ne m0 n x _ (fun hxe => hnd.1 (hxe ▸ hx))
    | splat n mi ma =>
      simp only [matchSegs] at hm
      by_cases hrs : rs.isEmpty
      · simp [hrs] at hm
      · rw [if_neg (by simp [hrs])] at hm
        by_cases hA : ((rs.length : Int) - (minSegsOf rest : Int)) < (mi : Int)
        · rw [if_pos hA] at hm; cases hm
        · rw [if_neg hA] at hm
          by_cases hML : min (ma : Int) ((rs.length : Int) - (minSegsOf rest : Int))
              < (mi : Int)
          · rw [if_pos hML] at hm; cases hm
          · rw [if_neg hML] at hm
            obtain ⟨l, -, hf⟩ := firstLen_some _ _ _ _ hm
            by_cases htake : (rs.take l).length ≠ l
            · rw [if_pos htake] at hf; cases hf
            · rw [if_neg htake] at hf
              match hdec : decodeSlice (rs.take l) with
              | none => rw [hdec] at hf; cases hf
              | some ds =>
                rw [hdec] at hf
                match hrest : matchSegs rest (rs.drop l) with
                | none => rw [hrest] at hf; cases hf
                | some m0 =>
                  rw [hrest] at hf
                  cases hf
                  simp only [paramNames, List.nodup_cons] at hnd
                  refine ⟨l, ds, hdec, assocGet_assocSet_self _ _ _, ?_⟩
                  refine reconstructsFrom_congr rest _ m0 _ (ih _ _ hnd.2 hrest) ?_
                  intro x hx
                  exact assocGet_assocSet_ne m0 n x _ (fun hxe => hnd.1 (hxe ▸ hx))

/-- **C7, witness** for the amended theorem. -/
theorem C7_captures_decode_consumed_witness :
    reconstructsFrom [Seg.param "x"] ["a%20b"] [("x", PVal.s "a b")] :=
  C7_captures_decode_consumed [Seg.param "x"] ["a%20b"] [("x", PVal.s "a b")]
    (by decide) rfl

/-! ## C6: `application/json` body negotiation -/

/-- Is the parsed JSON value of JS `object` type (a JSON object or array)? -/
def isJsObjectVal : JVal → Bool
  | .obj _ => true
  | .arr _ => true
  | _ => false

/-- A charset parameter is present with a non-empty value other than
`utf-8` (values arrive lowercased from `parseContentType`). -/
def charsetPresentBad (args : List (String × String)) : Prop :=
  ∃ cs, assocGet args "charset" = some cs ∧ cs ≠ "" ∧ cs ≠ "utf-8"

/-- **C6, counterexample.**  The claim rejects with 400 any JSON body whose
parsed value is "anything other than an object".  A body holding the JSON
array `[0]` parses to an array — not a JSON object — yet the decoder accepts
it and makes it the body parameters (the `typeof`-check treats arrays as
objects). -/
theorem C6_counterexample :
    decodeBodyStage (some ⟨"application/json", []⟩) "[0]" =
      .proceed [("0", PVal.j (JVal.num "0"))] ∧
    ∀ fields, jsonParse "[0]" ≠ some (JVal.obj fields) := by
  refine ⟨rfl, ?_⟩
  intro fields h
  have hp : jsonParse "[0]" = some (JVal.arr [JVal.num "0"]) := rfl
  rw [hp] at h
  exact JVal.noConfusion (Option.some.inj h)

/-- **C6 (amended).**  For a POST/PUT body with media type
`application/json`, the decode stage rejects with 400 exactly when a charset
parameter with a non-empty value other than `utf-8` is present, the body
fails to parse as JSON, or the parsed value is not of JS object type (JSON
`null`, booleans, numbers and strings are rejected; objects *and arrays* are
accepted); otherwise the parsed value's entries become the body parameters
and processing continues. -/
theorem C6_json_body_decode (args : List (String × String)) (body : String) :
    ((∃ d, decodeBodyStage (some ⟨"application/json", args⟩) body = .halt 400 d) ↔
      (charsetPresentBad args ∨ jsonParse body = none ∨
        ∃ v, jsonParse body = some v ∧ isJsObjectVal v = false)) ∧
    (∀ v, ¬ charsetPresentBad args → jsonParse body = some v →
      isJsObjectVal v = true →
      decodeBodyStage (some ⟨"application/json", args⟩) body =
        .proceed (jvalEntries v)) := by
  have hred : decodeBodyStage (some ⟨"application/json", args⟩) body =
      jsonBodyDecode args body := rfl
  have hcsiff : (match assocGet args "charset" with
      | some charset => charset ≠ "" && charset ≠ "utf-8"
      | none => false) = true ↔ charsetPresentBad args := by
    cases hcs : assocGet args "charset" with
    | none => simp [hcs, charsetPresentBad]
    | some cs => simp [hcs, charsetPresentBad]
  rw [hred]
  unfold jsonBodyDecode
  by_cases hbad : (match assocGet args "charset" with
      | some charset => charset ≠ "" && charset ≠ "utf-8"
      | none => false) = true
  · rw [if_pos hbad]
    constructor
    · exact ⟨fun _ => Or.inl (hcsiff.mp hbad), fun _ => ⟨_, rfl⟩⟩
    · intro v hcs
      exact absurd (hcsiff.mp hbad) hcs
  · rw [if_neg hbad]
    have hnotbad : ¬ charsetPresentBad args := fun h => hbad (hcsiff.mpr h)
    constructor
    · cases hp : jsonParse body with
      | none => simp [hp]
      | some v => cases v <;> simp [hp, isJsObjectVal, hnotbad]
    · intro v _ hp hobj
      rw [hp]
      cases v with
      | arr elems => rfl
      | obj fields => rfl
      | null => cases hobj
      | bool b => cases hobj
      | num raw => cases hobj
      | str raw => cases hobj

/-- **C6, witness**: a well-formed JSON object body with `charset=utf-8` is
accepted and becomes the body parameters. -/
theorem C6_json_body_decode_witness :
    decodeBodyStage (some ⟨"application/json", [("charset", "utf-8")]⟩)
        "\x7b\"k\":1\x7d" =
      .proceed [("k", PVal.j (JVal.num "1"))] :=
  (C6_json_body_decode [("charset", "utf-8")] "\x7b\"k\":1\x7d").2
    (JVal.obj [("k", JVal.num "1")])
    (by rintro ⟨cs, hcs, h1, h2⟩; cases Option.some.inj hcs; exact h2 rfl)
    rfl rfl

/-! ## Trace predicates for the lifecycle claims -/

/-- A response write (`error` or `jsonError`). -/
def isRespondAction : Action → Bool
  | .respond _ _ => true
  | .respondJson _ => true
  | _ => false

def countResponses (l : List Action) : Nat :=
  l.countP isRespondAction

def isAuthAction : Action → Bool
  | .authCall _ => true
  | _ => false

/-- Query-string or body parameter parsing. -/
def isParseAction : Action → Bool
  | .parseUrlParams => true
  | .parseBody => true
  | _ => false

def isHandlerAction : Action → Bool
  | .handlerCall _ => true
  | _ => false

def isRouteLookupAction : Action → Bool
  | .routeLookup _ _ => true
  | _ => false

def isValidatorAction : Action → Bool
  | .validatorRun _ => true
  | _ => false

/-- Any action of the dispatch stage: route lookup, authentication,
parameter parsing, validators, handler invocation. -/
def isDispatchAction (a : Action) : Bool :=
  isRouteLookupAction a || isAuthAction a || isParseAction a ||
    isValidatorAction a || isHandlerAction a

/-- Every response in the trace carries status code 400. -/
def respondsOnly400 (l : List Action) : Bool :=
  l.all (fun a =>
    match a with
    | .respond c _ => c == 400
    | .respondJson c => c == 400
    | _ => true)

theorem countResponses_append (l1 l2 : List Action) :
    countResponses (l1 ++ l2) = countResponses l1 + countResponses l2 := by
  simp [countResponses, List.countP_append]

/-! ### Shapes of the early-exit stages -/

theorem validatorStage_fst_count (v : Option (PMap → VOut)) (value : PMap) (d : String) :
    countResponses (validatorStage v value d).1 = 0 := by
  cases v <;> simp [validatorStage, countResponses, isRespondAction]

theorem validatorStage_fst_nodispatch (v : Option (PMap → VOut)) (value : PMap) (d : String) :
    (validatorStage v value d).1.all (fun a => !isAuthAction a) = true := by
  cases v <;> simp [validatorStage, isAuthAction]

theorem validatorStage_error_shape (v : Option (PMap → VOut)) (value : PMap)
    (d : String) (act : Action) (h : (validatorStage v value d).2 = .error act) :
    ∃ code detail, act = .respond code (some detail) ∧ (code = 400 ∨ code = 500) := by
  match v with
  | none => simp [validatorStage] at h
  | some f =>
    simp only [validatorStage, runValidatorModel] at h
    match hf : f value with
    | .obj m => rw [hf] at h; cases h
    | .nonObj => rw [hf] at h; cases h; exact ⟨500, _, rfl, Or.inr rfl⟩
    | .raise msg => rw [hf] at h; cases h; exact ⟨400, _, rfl, Or.inl rfl⟩

theorem endCbCT_error {req : HttpReq} {acts : List Action}
    (h : endCbCT req = .error acts) :
    acts = [.respond 400 (some "Unable to parse content-type.")] := by
  unfold endCbCT at h
  split at h
  · cases h
  · split at h
    · cases h
    · cases h; rfl

theorem endCbMethodSwitch_error_shape {req : HttpReq} {body : String}
    {acts : List Action} (h : endCbMethodSwitch req body = .error acts) :
    ∃ code detail, acts = [.respond code (some detail)] ∧ (code = 400 ∨ code = 405) := by
  unfold endCbMethodSwitch at h
  split at h
  · split at h
    · cases h; exact ⟨400, _, rfl, Or.inl rfl⟩
    · cases h
  · split at h
    · split at h
      · cases h; exact ⟨400, _, rfl, Or.inl rfl⟩
      · cases h
    · cases h; exact ⟨405, _, rfl, Or.inr rfl⟩

/-- `r.url` produced by the method switch. -/
def requestPathOf (req : HttpReq) : String :=
  if req.method = "POST" || req.method = "PUT" then req.url
  else (urlSplit req.url).1

theorem endCbMethodSwitch_ok_url {req : HttpReq} {body rUrl : String}
    {rawQS : Option String} (h : endCbMethodSwitch req body = .ok (rUrl, rawQS)) :
    rUrl = requestPathOf req := by
  unfold endCbMethodSwitch at h
  unfold requestPathOf
  split at h
  case isTrue hpp =>
    split at h
    · cases h
    · have h2 := congrArg Prod.fst (Except.ok.inj h)
      simp only [] at h2
      rw [if_pos hpp, ← h2]
  case isFalse hpp =>
    split at h
    case isTrue =>
      split at h
      · cases h
      · have h2 := congrArg Prod.fst (Except.ok.inj h)
        simp only [] at h2
        rw [if_neg hpp, ← h2]
    case isFalse => cases h

theorem endCbMethodSwitch_error_400 {req : HttpReq} {body : String}
    {acts : List Action}
    (hm : req.method = "GET" ∨ req.method = "POST" ∨ req.method = "PUT" ∨
      req.method = "DELETE")
    (h : endCbMethodSwitch req body = .error acts) :
    ∃ detail, acts = [.respond 400 (some detail)] := by
  unfold endCbMethodSwitch at h
  split at h
  · split at h
    · cases h; exact ⟨_, rfl⟩
    · cases h
  · split at h
    · split at h
      · cases h; exact ⟨_, rfl⟩
      · cases h
    · rename_i h1 h2
      rcases hm with hm | hm | hm | hm <;> simp [hm] at h1 h2

theorem endCbDanger_error_of_dangerous {mbs : Nat} {rUrl : String} {reason : String}
    (hd : detectDangerousPath rUrl = some reason) :
    endCbDanger ⟨mbs, true⟩ rUrl = .error [.respond 400 (some reason)] := by
  simp [endCbDanger, hd]

/-! ### At most one response (C4 support) -/

theorem countResponses_le_length (l : List Action) : countResponses l ≤ l.length :=
  List.countP_le_length _

theorem afterBody_count (a : List Action) (hopts : Option HOpts)
    (hres : Option Bool) (npp : PMap) (up : Option PMap) (bp : PMap) :
    countResponses (afterBody a hopts hres npp up bp) ≤ countResponses a + 1 := by
  unfold afterBody
  match heq : validatorStage (hopts.bind (·.bodyV)) bp "body parameters" with
  | (a1, .error act) =>
    dsimp only
    have hc1 : countResponses a1 = 0 := by
      have h := validatorStage_fst_count (hopts.bind (·.bodyV)) bp "body parameters"
      rw [heq] at h; exact h
    have hle := countResponses_le_length [act]
    rw [countResponses_append, countResponses_append, hc1]
    simp only [List.length_cons, List.length_nil] at hle
    omega
  | (a1, .ok ebp) =>
    dsimp only
    have hc1 : countResponses a1 = 0 := by
      have h := validatorStage_fst_count (hopts.bind (·.bodyV)) bp "body parameters"
      rw [heq] at h; exact h
    match heq2 : validatorStage (hopts.bind (·.paramsV))
        (mergeParams ebp (up.getD []) npp up.isNone).1 "request parameters" with
    | (a2, .error act) =>
      dsimp only
      have hc2 : countResponses a2 = 0 := by
        have h := validatorStage_fst_count (hopts.bind (·.paramsV))
          (mergeParams ebp (up.getD []) npp up.isNone).1 "request parameters"
        rw [heq2] at h; exact h
      have hle := countResponses_le_length [act]
      rw [countResponses_append, countResponses_append, countResponses_append, hc1, hc2]
      simp only [List.length_cons, List.length_nil] at hle
      omega
    | (a2, .ok finalParams) =>
      dsimp only
      have hc2 : countResponses a2 = 0 := by
        have h := validatorStage_fst_count (hopts.bind (·.paramsV))
          (mergeParams ebp (up.getD []) npp up.isNone).1 "request parameters"
        rw [heq2] at h; exact h
      match hres with
      | none =>
        rw [countResponses_append, countResponses_append, countResponses_append, hc1, hc2]
        simp [countResponses, isRespondAction]
      | some b =>
        rw [countResponses_append, countResponses_append, countResponses_append, hc1, hc2]
        simp [countResponses, isRespondAction]

theorem afterUrl_count (a : List Action) (hopts : Option HOpts)
    (hres : Option Bool) (npp : PMap) (up : Option PMap)
    (ctOpt : Option ContentType) (body reqMethod : String) :
    countResponses (afterUrl a hopts hres npp up ctOpt body reqMethod) ≤
      countResponses a + 1 := by
  unfold afterUrl
  split
  · match hdec : decodeBodyStage ctOpt body with
    | .halt code detail =>
      dsimp only
      rw [countResponses_append]
      simp [countResponses, isRespondAction]
    | .proceed bp =>
      dsimp only
      calc countResponses (afterBody (a ++ [.parseBody]) hopts hres npp up bp)
          ≤ countResponses (a ++ [.parseBody]) + 1 := afterBody_count _ _ _ _ _ _
        _ = countResponses a + 1 := by
            rw [countResponses_append]; simp [countResponses, isRespondAction]
  · exact afterBody_count _ _ _ _ _ _

theorem dispatchAfterAuth_count (hopts : Option HOpts) (hres : Option Bool)
    (pathParams : Params) (rawQS : Option String) (ctOpt : Option ContentType)
    (body reqMethod : String) :
    countResponses (dispatchAfterAuth hopts hres pathParams rawQS ctOpt body reqMethod)
      ≤ 1 := by
  unfold dispatchAfterAuth
  match heq : validatorStage (hopts.bind (·.pathV)) pathParams "path parameters" with
  | (a1, .error act) =>
    dsimp only
    have hc1 : countResponses a1 = 0 := by
      have h := validatorStage_fst_count (hopts.bind (·.pathV)) pathParams "path parameters"
      rw [heq] at h; exact h
    have hle := countResponses_le_length [act]
    rw [countResponses_append, hc1]
    simp only [List.length_cons, List.length_nil] at hle
    omega
  | (a1, .ok npp) =>
    dsimp only
    have hc1 : countResponses a1 = 0 := by
      have h := validatorStage_fst_count (hopts.bind (·.pathV)) pathParams "path parameters"
      rw [heq] at h; exact h
    split
    · calc countResponses (afterUrl a1 hopts hres npp none ctOpt body reqMethod)
          ≤ countResponses a1 + 1 := afterUrl_count _ _ _ _ _ _ _ _
        _ ≤ 1 := by omega
    · match heq2 : validatorStage (hopts.bind (·.urlV)) (parseQuery rawQS)
          "URL parameters" with
      | (a2, .error act) =>
        dsimp only
        have hc2 : countResponses a2 = 0 := by
          have h := validatorStage_fst_count (hopts.bind (·.urlV)) (parseQuery rawQS)
            "URL parameters"
          rw [heq2] at h; exact h
        have hle : countResponses [act] ≤ 1 := by
          have := countResponses_le_length [act]; simpa using this
        have hp0 : countResponses [Action.parseUrlParams] = 0 := by
          simp [countResponses, isRespondAction]
        rw [countResponses_append, countResponses_append, countResponses_append,
          hc1, hc2, hp0]
        omega
      | (a2, .ok up) =>
        dsimp only
        have hc2 : countResponses a2 = 0 := by
          have h := validatorStage_fst_count (hopts.bind (·.urlV)) (parseQuery rawQS)
            "URL parameters"
          rw [heq2] at h; exact h
        calc countResponses (afterUrl (a1 ++ [.parseUrlParams] ++ a2) hopts hres npp
              (some up) ctOpt body reqMethod)
            ≤ countResponses (a1 ++ [.parseUrlParams] ++ a2) + 1 :=
              afterUrl_count _ _ _ _ _ _ _ _
          _ ≤ 1 := by
              rw [countResponses_append, countResponses_append, hc1, hc2]
              simp [countResponses, isRespondAction]

theorem authAndGo_count (beh : Behavior) (hopts : Option HOpts) (hres : Option Bool)
    (pathParams : Params) (rawQS : Option String) (ctOpt : Option ContentType)
    (body reqMethod : String) :
    countResponses (authAndGo beh hopts hres pathParams rawQS ctOpt body reqMethod)
      ≤ 1 := by
  unfold authAndGo
  match beh.authResult with
  | none => simp [countResponses, isRespondAction]
  | some false => simp [countResponses, isRespondAction]
  | some true =>
    have h := dispatchAfterAuth_count hopts hres pathParams rawQS ctOpt body reqMethod
    simpa [countResponses, isRespondAction] using h

theorem endCbDispatch_count (beh : Behavior) (reg : Registry) (req : HttpReq)
    (rUrl : String) (rawQS : Option String) (ctOpt : Option ContentType)
    (body : String) :
    countResponses (endCbDispatch beh reg req rUrl rawQS ctOpt body) ≤ 1 := by
  unfold endCbDispatch
  match hm : matchRequestHandler reg req.method rUrl with
  | .error e => simp [countResponses, isRespondAction]
  | .ok (some (e, pp)) =>
    have h := authAndGo_count beh e.opts e.handlerResult pp rawQS ctOpt body req.method
    simpa [countResponses, List.countP_cons, isRespondAction] using h
  | .ok none =>
    dsimp only
    match beh.fallback with
    | some hres =>
      have h := authAndGo_count beh none hres [] rawQS ctOpt body req.method
      simpa [countResponses, List.countP_cons, isRespondAction] using h
    | none =>
      dsimp only
      match hho : hasHandlerForOtherMethod reg req.method rUrl with
      | .error e => simp [countResponses, isRespondAction]
      | .ok true => simp [countResponses, isRespondAction]
      | .ok false => simp [countResponses, isRespondAction]

theorem endCbModel_count (cfg : Cfg) (beh : Behavior) (reg : Registry)
    (req : HttpReq) (declaredCL : Option Int) (body : String) :
    countResponses (endCbModel cfg beh reg req declaredCL body) ≤ 1 := by
  unfold endCbModel
  split
  · simp [countResponses, isRespondAction]
  · match hct : endCbCT req with
    | .error acts =>
      dsimp only
      rw [endCbCT_error hct]
      simp [countResponses, isRespondAction]
    | .ok ctOpt =>
      dsimp only
      match hms : endCbMethodSwitch req body with
      | .error acts =>
        dsimp only
        obtain ⟨code, detail, hacts, -⟩ := endCbMethodSwitch_error_shape hms
        rw [hacts]
        simp [countResponses, isRespondAction]
      | .ok (rUrl, rawQS) =>
        dsimp only
        match hdg : endCbDanger cfg rUrl with
        | .error acts =>
          dsimp only
          unfold endCbDanger at hdg
          split at hdg
          · split at hdg
            · cases hdg; simp [countResponses, isRespondAction]
            · cases hdg
          · cases hdg
        | .ok u =>
          dsimp only
          exact endCbDispatch_count beh reg req rUrl rawQS ctOpt body

theorem stepEvent_completed (cfg : Cfg) (beh : Behavior) (reg : Registry)
    (req : HttpReq) (declaredCL : Option Int) (st : LState) (ev : REvent)
    (h : st.completed = true) :
    stepEvent cfg beh reg req declaredCL st ev = (st, []) := by
  cases ev <;> simp [stepEvent, h]

/-- Any event either leaves the state, completes it with at most one
response, or accumulates silently. -/
theorem stepEvent_cases (cfg : Cfg) (beh : Behavior) (reg : Registry)
    (req : HttpReq) (declaredCL : Option Int) (st : LState) (ev : REvent)
    (h : st.completed = false) :
    let r := stepEvent cfg beh reg req declaredCL st ev
    countResponses r.2 ≤ 1 ∧ (r.1.completed = false → r.2 = []) := by
  cases ev with
  | data chunk =>
    simp only [stepEvent, h, Bool.false_eq_true, if_false]
    split
    · exact ⟨by simp [countResponses, isRespondAction], by intro hco; simp at hco⟩
    · split
      · exact ⟨by simp [countResponses, isRespondAction], by intro hco; simp at hco⟩
      · exact ⟨by simp [countResponses], fun _ => rfl⟩
  | endOfStream =>
    simp only [stepEvent, h, Bool.false_eq_true, if_false]
    exact ⟨endCbModel_count cfg beh reg req declaredCL st.body,
      by intro hco; simp at hco⟩
  | ioError =>
    simp only [stepEvent, h, Bool.false_eq_true, if_false]
    exact ⟨by simp [countResponses, isRespondAction], by intro hco; simp at hco⟩
  | timerFire =>
    simp only [stepEvent, h, Bool.false_eq_true, if_false]
    exact ⟨by simp [countResponses, isRespondAction], by intro hco; simp at hco⟩

theorem runEvents_count (cfg : Cfg) (beh : Behavior) (reg : Registry)
    (req : HttpReq) (declaredCL : Option Int) (st : LState) (evs : List REvent) :
    countResponses (runEvents cfg beh reg req declaredCL st evs).2 ≤
      (if st.completed then 0 else 1) := by
  induction evs generalizing st with
  | nil => simp [runEvents, countResponses]
  | cons ev rest ih =>
    match hco : st.completed with
    | true =>
      simp only [runEvents, stepEvent_completed cfg beh reg req declaredCL st ev hco]
      have h := ih st
      simpa [hco] using h
    | false =>
      simp only [runEvents]
      rw [countResponses_append]
      obtain ⟨h1, h2⟩ := stepEvent_cases cfg beh reg req declaredCL st ev hco
      match hco2 : (stepEvent cfg beh reg req declaredCL st ev).1.completed with
      | true =>
        have h3 : countResponses (runEvents cfg beh reg req declaredCL
            (stepEvent cfg beh reg req declaredCL st ev).1 rest).2 ≤ 0 := by
          have h4 := ih (stepEvent cfg beh reg req declaredCL st ev).1
          simpa [hco2] using h4
        simp only [hco, if_false, Bool.false_eq_true]
        omega
      | false =>
        have hnil := h2 hco2
        rw [hnil]
        have h3 : countResponses (runEvents cfg beh reg req declaredCL
            (stepEvent cfg beh reg req declaredCL st ev).1 rest).2 ≤ 1 := by
          have h4 := ih (stepEvent cfg beh reg req declaredCL st ev).1
          simpa [hco2] using h4
        simp only [hco, if_false, Bool.false_eq_true]
        simpa [countResponses] using h3

/-- **C4.**  At most one response is written per request over every possible
sequence of transport events; and the concrete overflow scenario — a POST
declaring `Content-Length: 10` whose body delivers 11 bytes — yields exactly
one 400 response already at the data event (before end-of-stream), destroys
the transport, and never invokes the handler (a subsequent end-of-stream
changes nothing). -/
theorem C4_at_most_one_response :
    (∀ (cfg : Cfg) (beh : Behavior) (reg : Registry) (req : HttpReq)
        (evs : List REvent),
      countResponses (processRequest cfg beh reg req evs) ≤ 1) ∧
    processRequest ⟨1048576, true⟩ {} [] ⟨"POST", "/x", "", "10", ""⟩
        [.data "12345678901"] =
      [.respond 400 (some "Request body longer than Content-Length."), .destroy] ∧
    processRequest ⟨1048576, true⟩ {} [] ⟨"POST", "/x", "", "10", ""⟩
        [.data "12345678901", .endOfStream] =
      [.respond 400 (some "Request body longer than Content-Length."), .destroy] := by
  refine ⟨?_, rfl, rfl⟩
  intro cfg beh reg req evs
  unfold processRequest
  match hpre : preCheck cfg req with
  | .error acts =>
    unfold preCheck at hpre
    split at hpre
    · cases hpre; simp [countResponses, isRespondAction]
    · split at hpre
      · split at hpre
        · cases hpre; simp [countResponses, isRespondAction]
        · split at hpre
          · cases hpre; simp [countResponses, isRespondAction]
          · split at hpre
            · cases hpre; simp [countResponses, isRespondAction]
            · cases hpre
      · cases hpre
  | .ok declaredCL =>
    have h := runEvents_count cfg beh reg req declaredCL ⟨false, "", 0⟩ evs
    simpa using h

/-! ### C9: dangerous paths -/

/-- The constructor's `rejectDangerousPaths` option resolution
(src/unnamed/part_002:459-465): unset means `true`; non-boolean values throw
and are precluded by typing. -/
def resolveRejectDangerousPaths : Option Bool → Bool
  | none => true
  | some b => b

/-- Under the default dangerous-path policy, a GET/POST/PUT/DELETE request
whose path is dangerous is answered by `endCb` with exactly one 400
response, whatever else the request carries. -/
theorem endCbModel_dangerous (mbs : Nat) (beh : Behavior) (reg : Registry)
    (req : HttpReq) (declaredCL : Option Int) (body : String)
    (hm : req.method = "GET" ∨ req.method = "POST" ∨ req.method = "PUT" ∨
      req.method = "DELETE")
    (hd : detectDangerousPath (requestPathOf req) ≠ none) :
    ∃ d, endCbModel ⟨mbs, true⟩ beh reg req declaredCL body =
      [.respond 400 (some d)] := by
  unfold endCbModel
  split
  · exact ⟨_, rfl⟩
  · match hct : endCbCT req with
    | .error acts =>
      dsimp only
      rw [endCbCT_error hct]
      exact ⟨_, rfl⟩
    | .ok ctOpt =>
      dsimp only
      match hms : endCbMethodSwitch req body with
      | .error acts =>
        dsimp only
        obtain ⟨detail, hacts⟩ := endCbMethodSwitch_error_400 hm hms
        rw [hacts]
        exact ⟨detail, rfl⟩
      | .ok (rUrl, rawQS) =>
        dsimp only
        have hurl := endCbMethodSwitch_ok_url hms
        match hdet : detectDangerousPath rUrl with
        | none => rw [hurl] at hdet; exact absurd hdet hd
        | some reason =>
          refine ⟨reason, ?_⟩
          rw [endCbDanger_error_of_dangerous hdet]

/-- If every end-of-stream trace is a lone 400, no event sequence ever
produces a dispatch-stage action. -/
theorem runEvents_nodispatch (cfg : Cfg) (beh : Behavior) (reg : Registry)
    (req : HttpReq) (declaredCL : Option Int)
    (hcore : ∀ body, ∃ d, endCbModel cfg beh reg req declaredCL body =
      [.respond 400 (some d)])
    (st : LState) (evs : List REvent) :
    ((runEvents cfg beh reg req declaredCL st evs).2).all
      (fun a => !isDispatchAction a) = true := by
  induction evs generalizing st with
  | nil => simp [runEvents]
  | cons ev rest ih =>
    simp only [runEvents, List.all_append]
    refine Bool.and_eq_true_iff.mpr ⟨?_, ih _⟩
    cases ev with
    | data chunk =>
      by_cases hco : st.completed = true
      · simp [stepEvent, hco]
      · simp only [Bool.not_eq_true] at hco
        simp only [stepEvent, hco, Bool.false_eq_true, if_false]
        split
        · simp [isDispatchAction, isRouteLookupAction, isAuthAction, isParseAction,
            isValidatorAction, isHandlerAction]
        · split
          · simp [isDispatchAction, isRouteLookupAction, isAuthAction, isParseAction,
              isValidatorAction, isHandlerAction]
          · simp
    | endOfStream =>
      by_cases hco : st.completed = true
      · simp [stepEvent, hco]
      · simp only [Bool.not_eq_true] at hco
        simp only [stepEvent, hco, Bool.false_eq_true, if_false]
        obtain ⟨d, hd⟩ := hcore st.body
        rw [hd]
        simp [isDispatchAction, isRouteLookupAction, isAuthAction, isParseAction,
          isValidatorAction, isHandlerAction]
    | ioError =>
      by_cases hco : st.completed = true
      · simp [stepEvent, hco]
      · simp only [Bool.not_eq_true] at hco
        simp [stepEvent, hco, isDispatchAction, isRouteLookupAction, isAuthAction,
          isParseAction, isValidatorAction, isHandlerAction]
    | timerFire =>
      by_cases hco : st.completed = true
      · simp [stepEvent, hco]
      · simp only [Bool.not_eq_true] at hco
        simp [stepEvent, hco, isDispatchAction, isRouteLookupAction, isAuthAction,
          isParseAction, isValidatorAction, isHandlerAction]

/-- **C9.**  With `rejectDangerousPaths` in force (the constructor default
when the option is unset), any GET/POST/PUT/DELETE request whose path holds
an empty, `.`, or `..` segment is answered at end-of-stream with exactly one
400 response, and no event sequence ever reaches route lookup,
authentication, parameter parsing, validators, or a handler for it. -/
theorem C9_dangerous_path_rejected (mbs : Nat) (beh : Behavior) (reg : Registry)
    (req : HttpReq) (declaredCL : Option Int) (body : String)
    (hm : req.method = "GET" ∨ req.method = "POST" ∨ req.method = "PUT" ∨
      req.method = "DELETE")
    (hd : detectDangerousPath (requestPathOf req) ≠ none) :
    (∃ d, endCbModel ⟨mbs, true⟩ beh reg req declaredCL body =
      [.respond 400 (some d)]) ∧
    (∀ evs, ((processRequest ⟨mbs, true⟩ beh reg req evs).all
      (fun a => !isDispatchAction a)) = true) ∧
    resolveRejectDangerousPaths none = true := by
  refine ⟨endCbModel_dangerous mbs beh reg req declaredCL body hm hd, ?_, rfl⟩
  intro evs
  unfold processRequest
  match hpre : preCheck ⟨mbs, true⟩ req with
  | .error acts =>
    dsimp only
    unfold preCheck at hpre
    split at hpre
    · cases hpre
      simp [isDispatchAction, isRouteLookupAction, isAuthAction, isParseAction,
        isValidatorAction, isHandlerAction]
    · split at hpre
      · split at hpre
        · cases hpre
          simp [isDispatchAction, isRouteLookupAction, isAuthAction, isParseAction,
            isValidatorAction, isHandlerAction]
        · split at hpre
          · cases hpre
            simp [isDispatchAction, isRouteLookupAction, isAuthAction, isParseAction,
              isValidatorAction, isHandlerAction]
          · split at hpre
            · cases hpre
              simp [isDispatchAction, isRouteLookupAction, isAuthAction, isParseAction,
                isValidatorAction, isHandlerAction]
            · cases hpre
      · cases hpre
  | .ok dcl =>
    dsimp only
    exact runEvents_nodispatch ⟨mbs, true⟩ beh reg req dcl
      (fun b => endCbModel_dangerous mbs beh reg req dcl b hm hd) _ evs

/-- **C9, witness**: a GET for `/a/../b` against an empty registry is
answered with the single 400 naming the `..` segment. -/
theorem C9_dangerous_path_rejected_witness :
    ∃ d, endCbModel ⟨1048576, true⟩ {} [] ⟨"GET", "/a/../b", "", "", ""⟩ none "" =
      [.respond 400 (some d)] :=
  (C9_dangerous_path_rejected 1048576 {} [] ⟨"GET", "/a/../b", "", "", ""⟩ none ""
    (Or.inl rfl) (by decide)).1

/-! ### C10: `maxBodySize = 0` -/

/-- Is this action a 413 response? -/
def is413 : Action → Bool
  | .respond c _ => c == 413
  | .respondJson c => c == 413
  | _ => false

def no413 (l : List Action) : Bool :=
  l.all (fun a => !is413 a)

/-- The constructor's `maxBodySize` validation
(src/unnamed/part_002:545-553): a safe integer that is `≥ 0`. -/
def validMaxBodySizeOpt (n : Int) : Bool :=
  decide (n.natAbs ≤ maxSafeInt) && decide (0 ≤ n)

theorem no413_append (l1 l2 : List Action) :
    no413 (l1 ++ l2) = (no413 l1 && no413 l2) := by
  simp [no413, List.all_append]

theorem validatorStage_fst_no413 (v : Option (PMap → VOut)) (value : PMap) (d : String) :
    no413 (validatorStage v value d).1 = true := by
  cases v <;> simp [validatorStage, no413, is413]

theorem validatorStage_error_no413 (v : Option (PMap → VOut)) (value : PMap)
    (d : String) (act : Action) (h : (validatorStage v value d).2 = .error act) :
    is413 act = false := by
  obtain ⟨code, detail, hact, hcode⟩ := validatorStage_error_shape v value d act h
  rcases hcode with h | h <;> simp [hact, h, is413]

theorem afterBody_no413 (a : List Action) (hopts : Option HOpts)
    (hres : Option Bool) (npp : PMap) (up : Option PMap) (bp : PMap)
    (ha : no413 a = true) :
    no413 (afterBody a hopts hres npp up bp) = true := by
  unfold afterBody
  match heq : validatorStage (hopts.bind (·.bodyV)) bp "body parameters" with
  | (a1, .error act) =>
    dsimp only
    have h1 : no413 a1 = true := by
      have h := validatorStage_fst_no413 (hopts.bind (·.bodyV)) bp "body parameters"
      rw [heq] at h; exact h
    have h2 : is413 act = false :=
      validatorStage_error_no413 _ _ _ act (by rw [heq])
    rw [no413_append, no413_append]
    simp only [Bool.and_eq_true]
    exact ⟨⟨ha, h1⟩, by simp [no413, h2]⟩
  | (a1, .ok ebp) =>
    dsimp only
    have h1 : no413 a1 = true := by
      have h := validatorStage_fst_no413 (hopts.bind (·.bodyV)) bp "body parameters"
      rw [heq] at h; exact h
    match heq2 : validatorStage (hopts.bind (·.paramsV))
        (mergeParams ebp (up.getD []) npp up.isNone).1 "request parameters" with
    | (a2, .error act) =>
      dsimp only
      have h2 : no413 a2 = true := by
        have h := validatorStage_fst_no413 (hopts.bind (·.paramsV))
          (mergeParams ebp (up.getD []) npp up.isNone).1 "request parameters"
        rw [heq2] at h; exact h
      have h3 : is413 act = false :=
        validatorStage_error_no413 _ _ _ act (by rw [heq2])
      rw [no413_append, no413_append, no413_append]
      simp only [Bool.and_eq_true]
      exact ⟨⟨⟨ha, h1⟩, h2⟩, by simp [no413, h3]⟩
    | (a2, .ok finalParams) =>
      dsimp only
      have h2 : no413 a2 = true := by
        have h := validatorStage_fst_no413 (hopts.bind (·.paramsV))
          (mergeParams ebp (up.getD []) npp up.isNone).1 "request parameters"
        rw [heq2] at h; exact h
      match hres with
      | none =>
        rw [no413_append, no413_append, no413_append]
        simp only [Bool.and_eq_true]
        exact ⟨⟨⟨ha, h1⟩, h2⟩, by simp [no413, is413]⟩
      | some b =>
        rw [no413_append, no413_append, no413_append]
        simp only [Bool.and_eq_true]
        exact ⟨⟨⟨ha, h1⟩, h2⟩, by simp [no413, is413]⟩

theorem decodeBodyStage_no413 (ctOpt : Option ContentType) (body : String)
    (code : Nat) (detail : String)
    (h : decodeBodyStage ctOpt body = .halt code detail) : code ≠ 413 := by
  unfold decodeBodyStage at h
  match ctOpt with
  | none => cases h; omega
  | some ct =>
    dsimp only at h
    split at h
    · cases h
    · split at h
      · unfold jsonBodyDecode at h
        by_cases hbad : (match assocGet ct.params "charset" with
            | some charset => charset ≠ "" && charset ≠ "utf-8"
            | none => false) = true
        · rw [if_pos hbad] at h; cases h; omega
        · rw [if_neg hbad] at h
          match hp : jsonParse body with
          | none => rw [hp] at h; cases h; omega
          | some v =>
            rw [hp] at h
            cases v <;> dsimp only at h <;> first | (cases h; omega) | cases h
      · cases h; omega

theorem afterUrl_no413 (a : List Action) (hopts : Option HOpts)
    (hres : Option Bool) (npp : PMap) (up : Option PMap)
    (ctOpt : Option ContentType) (body reqMethod : String)
    (ha : no413 a = true) :
    no413 (afterUrl a hopts hres npp up ctOpt body reqMethod) = true := by
  unfold afterUrl
  split
  · match hdec : decodeBodyStage ctOpt body with
    | .halt code detail =>
      dsimp only
      have hc := decodeBodyStage_no413 ctOpt body code detail hdec
      rw [no413_append]
      simp only [Bool.and_eq_true]
      refine ⟨ha, ?_⟩
      simp [no413, is413]
      omega
    | .proceed bp =>
      dsimp only
      refine afterBody_no413 _ _ _ _ _ _ ?_
      rw [no413_append]
      simp only [Bool.and_eq_true]
      exact ⟨ha, by simp [no413, is413]⟩
  · exact afterBody_no413 _ _ _ _ _ _ ha

theorem dispatchAfterAuth_no413 (hopts : Option HOpts) (hres : Option Bool)
    (pathParams : Params) (rawQS : Option String) (ctOpt : Option ContentType)
    (body reqMethod : String) :
    no413 (dispatchAfterAuth hopts hres pathParams rawQS ctOpt body reqMethod) = true := by
  unfold dispatchAfterAuth
  match heq : validatorStage (hopts.bind (·.pathV)) pathParams "path parameters" with
  | (a1, .error act) =>
    dsimp only
    have h1 : no413 a1 = true := by
      have h := validatorStage_fst_no413 (hopts.bind (·.pathV)) pathParams "path parameters"
      rw [heq] at h; exact h
    have h2 : is413 act = false :=
      validatorStage_error_no413 _ _ _ act (by rw [heq])
    rw [no413_append]
    simp only [Bool.and_eq_true]
    exact ⟨h1, by simp [no413, h2]⟩
  | (a1, .ok npp) =>
    dsimp only
    have h1 : no413 a1 = true := by
      have h := validatorStage_fst_no413 (hopts.bind (·.pathV)) pathParams "path parameters"
      rw [heq] at h; exact h
    split
    · exact afterUrl_no413 _ _ _ _ _ _ _ _ h1
    · match heq2 : validatorStage (hopts.bind (·.urlV)) (parseQuery rawQS)
          "URL parameters" with
      | (a2, .error act) =>
        dsimp only
        have h2 : no413 a2 = true := by
          have h := validatorStage_fst_no413 (hopts.bind (·.urlV)) (parseQuery rawQS)
            "URL parameters"
          rw [heq2] at h; exact h
        have h3 : is413 act = false :=
          validatorStage_error_no413 _ _ _ act (by rw [heq2])
        rw [no413_append, no413_append, no413_append]
        simp only [Bool.and_eq_true]
        exact ⟨⟨⟨h1, by simp [no413, is413]⟩, h2⟩, by simp [no413, h3]⟩
      | (a2, .ok up) =>
        dsimp only
        have h2 : no413 a2 = true := by
          have h := validatorStage_fst_no413 (hopts.bind (·.urlV)) (parseQuery rawQS)
            "URL parameters"
          rw [heq2] at h; exact h
        refine afterUrl_no413 _ _ _ _ _ _ _ _ ?_
        rw [no413_append, no413_append]
        simp only [Bool.and_eq_true]
        exact ⟨⟨h1, by simp [no413, is413]⟩, h2⟩

theorem authAndGo_no413 (beh : Behavior) (hopts : Option HOpts) (hres : Option Bool)
    (pathParams : Params) (rawQS : Option String) (ctOpt : Option ContentType)
    (body reqMethod : String) :
    no413 (authAndGo beh hopts hres pathParams rawQS ctOpt body reqMethod) = true := by
  unfold authAndGo
  match beh.authResult with
  | none => simp [no413, is413]
  | some false => simp [no413, is413]
  | some true =>
    have h := dispatchAfterAuth_no413 hopts hres pathParams rawQS ctOpt body reqMethod
    simpa [no413, is413] using h

theorem endCbDispatch_no413 (beh : Behavior) (reg : Registry) (req : HttpReq)
    (rUrl : String) (rawQS : Option String) (ctOpt : Option ContentType)
    (body : String) :
    no413 (endCbDispatch beh reg req rUrl rawQS ctOpt body) = true := by
  unfold endCbDispatch
  match hm : matchRequestHandler reg req.method rUrl with
  | .error e => simp [no413, is413]
  | .ok (some (e, pp)) =>
    have h := authAndGo_no413 beh e.opts e.handlerResult pp rawQS ctOpt body req.method
    simpa [no413, is413] using h
  | .ok none =>
    dsimp only
    match beh.fallback with
    | some hres =>
      have h := authAndGo_no413 beh none hres [] rawQS ctOpt body req.method
      simpa [no413, is413] using h
    | none =>
      dsimp only
      match hho : hasHandlerForOtherMethod reg req.method rUrl with
      | .error e => simp [no413, is413]
      | .ok true => simp [no413, is413]
      | .ok false => simp [no413, is413]

theorem endCbModel_no413 (cfg : Cfg) (beh : Behavior) (reg : Registry)
    (req : HttpReq) (declaredCL : Option Int) (body : String) :
    no413 (endCbModel cfg beh reg req declaredCL body) = true := by
  unfold endCbModel
  split
  · simp [no413, is413]
  · match hct : endCbCT req with
    | .error acts =>
      dsimp only
      rw [endCbCT_error hct]
      simp [no413, is413]
    | .ok ctOpt =>
      dsimp only
      match hms : endCbMethodSwitch req body with
      | .error acts =>
        dsimp only
        obtain ⟨code, detail, hacts, hcode⟩ := endCbMethodSwitch_error_shape hms
        rw [hacts]
        rcases hcode with h | h <;> simp [no413, is413, h]
      | .ok (rUrl, rawQS) =>
        dsimp only
        match hdg : endCbDanger cfg rUrl with
        | .error acts =>
          dsimp only
          unfold endCbDanger at hdg
          split at hdg
          · split at hdg
            · cases hdg; simp [no413, is413]
            · cases hdg
          · cases hdg
        | .ok u =>
          dsimp only
          exact endCbDispatch_no413 beh reg req rUrl rawQS ctOpt body

theorem runEvents_no413_of_zero (rdp : Bool) (beh : Behavior) (reg : Registry)
    (req : HttpReq) (declaredCL : Option Int) (st : LState) (evs : List REvent) :
    no413 (runEvents ⟨0, rdp⟩ beh reg req declaredCL st evs).2 = true := by
  induction evs generalizing st with
  | nil => simp [runEvents, no413]
  | cons ev rest ih =>
    simp only [runEvents, no413_append]
    refine Bool.and_eq_true_iff.mpr ⟨?_, ih _⟩
    cases ev with
    | data chunk =>
      by_cases hco : st.completed = true
      · simp [stepEvent, hco, no413]
      · simp only [Bool.not_eq_true] at hco
        simp only [stepEvent, hco, Bool.false_eq_true, if_false]
        split
        · simp [no413, is413]
        · simp [no413]
    | endOfStream =>
      by_cases hco : st.completed = true
      · simp [stepEvent, hco, no413]
      · simp only [Bool.not_eq_true] at hco
        simp only [stepEvent, hco, Bool.false_eq_true, if_false]
        exact endCbModel_no413 ⟨0, rdp⟩ beh reg req declaredCL st.body
    | ioError =>
      by_cases hco : st.completed = true
      · simp [stepEvent, hco, no413]
      · simp only [Bool.not_eq_true] at hco
        simp [stepEvent, hco, no413, is413]
    | timerFire =>
      by_cases hco : st.completed = true
      · simp [stepEvent, hco, no413]
      · simp only [Bool.not_eq_true] at hco
        simp [stepEvent, hco, no413, is413]

/-- With no size cap and no declared Content-Length, data events only
accumulate: no action is emitted and the request never completes. -/
theorem runEvents_data_accumulate (rdp : Bool) (beh : Behavior) (reg : Registry)
    (req : HttpReq) (st : LState) (chunks : List String)
    (hco : st.completed = false) :
    (runEvents ⟨0, rdp⟩ beh reg req none st (chunks.map .data)).2 = [] ∧
    (runEvents ⟨0, rdp⟩ beh reg req none st (chunks.map .data)).1.completed = false := by
  induction chunks generalizing st with
  | nil => simpa [runEvents] using hco
  | cons c rest ih =>
    simp only [List.map_cons, runEvents]
    have hstep : stepEvent ⟨0, rdp⟩ beh reg req none st (.data c) =
        ({ st with body := st.body ++ c, bodySize := st.bodySize + utf8SizeOf c }, []) := by
      simp [stepEvent, hco]
    rw [hstep]
    simpa using ih ⟨st.completed, st.body ++ c, st.bodySize + utf8SizeOf c⟩ hco

/-- **C10.**  `maxBodySize = 0` is a valid configuration; with it, neither
the Content-Length pre-check nor the streaming accumulated-size check can
fire, no 413 response is ever produced for any request or event sequence,
and a body of any size with no declared Content-Length is accepted silently
(no response, request not completed) however many chunks arrive. -/
theorem C10_zero_max_body_size :
    validMaxBodySizeOpt 0 = true ∧
    (∀ (rdp : Bool) (beh : Behavior) (reg : Registry) (req : HttpReq)
        (evs : List REvent),
      no413 (processRequest ⟨0, rdp⟩ beh reg req evs) = true) ∧
    (∀ (rdp : Bool) (beh : Behavior) (reg : Registry)
        (method url te ct : String) (chunks : List String),
      processRequest ⟨0, rdp⟩ beh reg ⟨method, url, te, "", ct⟩
        (chunks.map .data) = [] ∧
      (runEvents ⟨0, rdp⟩ beh reg ⟨method, url, te, "", ct⟩ none ⟨false, "", 0⟩
        (chunks.map .data)).1.completed = false) := by
  refine ⟨rfl, ?_, ?_⟩
  · intro rdp beh reg req evs
    unfold processRequest
    match hpre : preCheck ⟨0, rdp⟩ req with
    | .error acts =>
      dsimp only
      unfold preCheck at hpre
      split at hpre
      · cases hpre; simp [no413, is413]
      · split at hpre
        · split at hpre
          · cases hpre; simp [no413, is413]
          · split at hpre
            · cases hpre; simp [no413, is413]
            · split at hpre
              · cases hpre
                rename_i hcond
                simp at hcond
              · cases hpre
        · cases hpre
    | .ok dcl =>
      dsimp only
      exact runEvents_no413_of_zero rdp beh reg req dcl _ evs
  · intro rdp beh reg method url te ct chunks
    have hpre : preCheck ⟨0, rdp⟩ ⟨method, url, te, "", ct⟩ = .ok none := by
      simp [preCheck]
    have h := runEvents_data_accumulate rdp beh reg ⟨method, url, te, "", ct⟩
      ⟨false, "", 0⟩ chunks rfl
    refine ⟨?_, h.2⟩
    unfold processRequest
    rw [hpre]
    exact h.1

/-! ### C3: authentication versus parameter parsing -/

/-- A route-lookup action that extracted (URL-decoded) path parameters. -/
def extractsPathParams : Action → Bool
  | .routeLookup _ pp => !pp.isEmpty
  | _ => false

/-- Walking the trace from the start, authentication is reached before any
action `isParse` deems parameter parsing (vacuously true if neither ever
occurs). -/
def authLeads (isParse : Action → Bool) : List Action → Bool
  | [] => true
  | a :: rest =>
    if isAuthAction a then true
    else if isParse a then false
    else authLeads isParse rest

/-- The auth callback only ever observes a context with all four parameter
fields unset. -/
def authSnapOk : Action → Bool
  | .authCall s =>
    s.params.isNone && s.pathParams.isNone && s.urlParams.isNone && s.bodyParams.isNone
  | _ => true

/-- No authentication call happens before the route lookup. -/
def noAuthBeforeLookup : List Action → Bool
  | [] => true
  | .authCall _ :: _ => false
  | .routeLookup _ _ :: _ => true
  | _ :: rest => noAuthBeforeLookup rest

/-- The compiled `/user/{id}` template (total by construction). -/
def exUserTemplate : PathTemplate :=
  match compilePathTemplate "/user/{id}" with
  | .ok c => c
  | .error _ => ⟨true, "/user/{id}", [], false, false, 0, [0]⟩

/-- A registry holding one dynamic GET route `/user/{id}`. -/
def exUserReg : Registry :=
  [("GET", ⟨[], [("/user/{id}", ⟨exUserTemplate, none, some true⟩)]⟩)]

/-- **C3, counterexample.**  The claim puts the authentication callback
before *any* parameter parsing.  For GET `/user/42` against a registry with
`/user/{id}`, the matcher extracts and URL-decodes the path parameter
`id = "42"` during route lookup, *before* the authentication callback is
invoked — the trace shows the extraction strictly ahead of `authCall`, so
authentication does not precede all parameter parsing. -/
theorem C3_counterexample :
    endCbModel ⟨1048576, true⟩ {} exUserReg ⟨"GET", "/user/42", "", "", ""⟩ none "" =
      [.routeLookup true [("id", PVal.s "42")],
       .authCall ⟨none, none, none, none⟩,
       .parseUrlParams,
       .handlerCall ⟨some [("id", PVal.s "42")], some [("id", PVal.s "42")],
         some [], some []⟩] ∧
    authLeads (fun a => isParseAction a || extractsPathParams a)
      (endCbModel ⟨1048576, true⟩ {} exUserReg ⟨"GET", "/user/42", "", "", ""⟩ none "")
      = false :=
  ⟨rfl, rfl⟩

theorem authLeads_of_responds (l : List Action)
    (h : ∀ a ∈ l, isAuthAction a = false ∧ isParseAction a = false) :
    authLeads isParseAction l = true := by
  induction l with
  | nil => rfl
  | cons a rest ih =>
    obtain ⟨h1, h2⟩ := h a (by simp)
    simp only [authLeads, h1, h2, Bool.false_eq_true, if_false]
    exact ih (fun a ha => h a (by simp [ha]))

theorem noAuth_all_authSnapOk (l : List Action)
    (h : l.all (fun a => !isAuthAction a) = true) : l.all authSnapOk = true := by
  simp only [List.all_eq_true] at h ⊢
  intro a ha
  have := h a ha
  cases a <;> simp_all [isAuthAction, authSnapOk]

theorem afterBody_noAuth (a : List Action) (hopts : Option HOpts)
    (hres : Option Bool) (npp : PMap) (up : Option PMap) (bp : PMap)
    (ha : a.all (fun x => !isAuthAction x) = true) :
    (afterBody a hopts hres npp up bp).all (fun x => !isAuthAction x) = true := by
  unfold afterBody
  match heq : validatorStage (hopts.bind (·.bodyV)) bp "body parameters" with
  | (a1, .error act) =>
    dsimp only
    have h1 : a1.all (fun x => !isAuthAction x) = true := by
      have h := validatorStage_fst_nodispatch (hopts.bind (·.bodyV)) bp "body parameters"
      rw [heq] at h; exact h
    obtain ⟨code, detail, hact, -⟩ := validatorStage_error_shape _ _ _ act (by rw [heq])
    simp only [List.all_append, Bool.and_eq_true]
    exact ⟨⟨ha, h1⟩, by simp [hact, isAuthAction]⟩
  | (a1, .ok ebp) =>
    dsimp only
    have h1 : a1.all (fun x => !isAuthAction x) = true := by
      have h := validatorStage_fst_nodispatch (hopts.bind (·.bodyV)) bp "body parameters"
      rw [heq] at h; exact h
    match heq2 : validatorStage (hopts.bind (·.paramsV))
        (mergeParams ebp (up.getD []) npp up.isNone).1 "request parameters" with
    | (a2, .error act) =>
      dsimp only
      have h2 : a2.all (fun x => !isAuthAction x) = true := by
        have h := validatorStage_fst_nodispatch (hopts.bind (·.paramsV))
          (mergeParams ebp (up.getD []) npp up.isNone).1 "request parameters"
        rw [heq2] at h; exact h
      obtain ⟨code, detail, hact, -⟩ := validatorStage_error_shape _ _ _ act (by rw [heq2])
      simp only [List.all_append, Bool.and_eq_true]
      exact ⟨⟨⟨ha, h1⟩, h2⟩, by simp [hact, isAuthAction]⟩
    | (a2, .ok finalParams) =>
      dsimp only
      have h2 : a2.all (fun x => !isAuthAction x) = true := by
        have h := validatorStage_fst_nodispatch (hopts.bind (·.paramsV))
          (mergeParams ebp (up.getD []) npp up.isNone).1 "request parameters"
        rw [heq2] at h; exact h
      match hres with
      | none =>
        simp only [List.all_append, Bool.and_eq_true]
        exact ⟨⟨⟨ha, h1⟩, h2⟩, by simp [isAuthAction]⟩
      | some b =>
        simp only [List.all_append, Bool.and_eq_true]
        exact ⟨⟨⟨ha, h1⟩, h2⟩, by simp [isAuthAction]⟩

theorem afterUrl_noAuth (a : List Action) (hopts : Option HOpts)
    (hres : Option Bool) (npp : PMap) (up : Option PMap)
    (ctOpt : Option ContentType) (body reqMethod : String)
    (ha : a.all (fun x => !isAuthAction x) = true) :
    (afterUrl a hopts hres npp up ctOpt body reqMethod).all
      (fun x => !isAuthAction x) = true := by
  unfold afterUrl
  split
  · match hdec : decodeBodyStage ctOpt body with
    | .halt code detail =>
      dsimp only
      simp only [List.all_append, Bool.and_eq_true]
      exact ⟨ha, by simp [isAuthAction]⟩
    | .proceed bp =>
      dsimp only
      refine afterBody_noAuth _ _ _ _ _ _ ?_
      simp only [List.all_append, Bool.and_eq_true]
      exact ⟨ha, by simp [isAuthAction]⟩
  · exact afterBody_noAuth _ _ _ _ _ _ ha

theorem dispatchAfterAuth_noAuth (hopts : Option HOpts) (hres : Option Bool)
    (pathParams : Params) (rawQS : Option String) (ctOpt : Option ContentType)
    (body reqMethod : String) :
    (dispatchAfterAuth hopts hres pathParams rawQS ctOpt body reqMethod).all
      (fun x => !isAuthAction x) = true := by
  unfold dispatchAfterAuth
  match heq : validatorStage (hopts.bind (·.pathV)) pathParams "path parameters" with
  | (a1, .error act) =>
    dsimp only
    have h1 : a1.all (fun x => !isAuthAction x) = true := by
      have h := validatorStage_fst_nodispatch (hopts.bind (·.pathV)) pathParams
        "path parameters"
      rw [heq] at h; exact h
    obtain ⟨code, detail, hact, -⟩ := validatorStage_error_shape _ _ _ act (by rw [heq])
    simp only [List.all_append, Bool.and_eq_true]
    exact ⟨h1, by simp [hact, isAuthAction]⟩
  | (a1, .ok npp) =>
    dsimp only
    have h1 : a1.all (fun x => !isAuthAction x) = true := by
      have h := validatorStage_fst_nodispatch (hopts.bind (·.pathV)) pathParams
        "path parameters"
      rw [heq] at h; exact h
    split
    · exact afterUrl_noAuth _ _ _ _ _ _ _ _ h1
    · match heq2 : validatorStage (hopts.bind (·.urlV)) (parseQuery rawQS)
          "URL parameters" with
      | (a2, .error act) =>
        dsimp only
        have h2 : a2.all (fun x => !isAuthAction x) = true := by
          have h := validatorStage_fst_nodispatch (hopts.bind (·.urlV)) (parseQuery rawQS)
            "URL parameters"
          rw [heq2] at h; exact h
        obtain ⟨code, detail, hact, -⟩ := validatorStage_error_shape _ _ _ act
          (by rw [heq2])
        simp only [List.all_append, Bool.and_eq_true]
        exact ⟨⟨⟨h1, by simp [isAuthAction]⟩, h2⟩, by simp [hact, isAuthAction]⟩
      | (a2, .ok up) =>
        dsimp only
        have h2 : a2.all (fun x => !isAuthAction x) = true := by
          have h := validatorStage_fst_nodispatch (hopts.bind (·.urlV)) (parseQuery rawQS)
            "URL parameters"
          rw [heq2] at h; exact h
        refine afterUrl_noAuth _ _ _ _ _ _ _ _ ?_
        simp only [List.all_append, Bool.and_eq_true]
        exact ⟨⟨h1, by simp [isAuthAction]⟩, h2⟩

/-- **C3 (amended).**  Within the dispatch stage, the authentication
callback runs before query-string and body parameter parsing and before all
validators, and the context it observes has `params`, `pathParams`,
`urlParams`, `bodyParams` all unset; however, route lookup — which already
extracts and URL-decodes the path parameters into a local — always precedes
authentication, so auth comes first only relative to query/body parsing,
not to path-parameter extraction. -/
theorem C3_auth_ordering (cfg : Cfg) (beh : Behavior) (reg : Registry)
    (req : HttpReq) (declaredCL : Option Int) (body : String) :
    authLeads (fun a => isParseAction a || isValidatorAction a)
      (endCbModel cfg beh reg req declaredCL body) = true ∧
    (endCbModel cfg beh reg req declaredCL body).all authSnapOk = true ∧
    noAuthBeforeLookup (endCbModel cfg beh reg req declaredCL body) = true := by
  have hdisp : ∀ (rUrl : String) (rawQS : Option String) (ctOpt : Option ContentType),
      authLeads (fun a => isParseAction a || isValidatorAction a)
        (endCbDispatch beh reg req rUrl rawQS ctOpt body) = true ∧
      (endCbDispatch beh reg req rUrl rawQS ctOpt body).all authSnapOk = true ∧
      noAuthBeforeLookup (endCbDispatch beh reg req rUrl rawQS ctOpt body) = true := by
    intro rUrl rawQS ctOpt
    unfold endCbDispatch
    match hm : matchRequestHandler reg req.method rUrl with
    | .error e =>
      exact ⟨rfl, rfl, rfl⟩
    | .ok (some (e, pp)) =>
      dsimp only
      unfold authAndGo
      refine ⟨?_, ?_, ?_⟩
      · simp [authLeads, isAuthAction, isParseAction, isValidatorAction,
          isRouteLookupAction, extractsPathParams]
      · match hauth : beh.authResult with
        | none => simp [authSnapOk, List.all_eq_true]
        | some false => simp [authSnapOk]
        | some true =>
          simp only [List.all_cons, Bool.and_eq_true]
          refine ⟨by simp [authSnapOk], by simp [authSnapOk], ?_⟩
          exact noAuth_all_authSnapOk _
            (dispatchAfterAuth_noAuth e.opts e.handlerResult pp rawQS ctOpt body req.method)
      · rfl
    | .ok none =>
      dsimp only
      match beh.fallback with
      | some hres =>
        dsimp only
        unfold authAndGo
        refine ⟨?_, ?_, ?_⟩
        · simp [authLeads, isAuthAction, isParseAction, isValidatorAction]
        · match hauth : beh.authResult with
          | none => simp [authSnapOk, List.all_eq_true]
          | some false => simp [authSnapOk]
          | some true =>
            simp only [List.all_cons, Bool.and_eq_true]
            refine ⟨by simp [authSnapOk], by simp [authSnapOk], ?_⟩
            exact noAuth_all_authSnapOk _
              (dispatchAfterAuth_noAuth none hres [] rawQS ctOpt body req.method)
        · rfl
      | none =>
        dsimp only
        match hho : hasHandlerForOtherMethod reg req.method rUrl with
        | .error e => exact ⟨rfl, rfl, rfl⟩
        | .ok true => exact ⟨rfl, rfl, rfl⟩
        | .ok false => exact ⟨rfl, rfl, rfl⟩
  unfold endCbModel
  split
  · exact ⟨rfl, rfl, rfl⟩
  · match hct : endCbCT req with
    | .error acts =>
      dsimp only
      rw [endCbCT_error hct]
      exact ⟨rfl, rfl, rfl⟩
    | .ok ctOpt =>
      dsimp only
      match hms : endCbMethodSwitch req body with
      | .error acts =>
        dsimp only
        obtain ⟨code, detail, hacts, -⟩ := endCbMethodSwitch_error_shape hms
        rw [hacts]
        exact ⟨rfl, rfl, rfl⟩
      | .ok (rUrl, rawQS) =>
        dsimp only
        match hdg : endCbDanger cfg rUrl with
        | .error acts =>
          dsimp only
          unfold endCbDanger at hdg
          split at hdg
          · split at hdg
            · cases hdg; exact ⟨rfl, rfl, rfl⟩
            · cases hdg
          · cases hdg
        | .ok u =>
          dsimp only
          exact hdisp rUrl rawQS ctOpt

end ApiSrv
